import Mathlib

/-!
Verification of the GPS/time correlation engine and the privacy-detection
region-merging algorithm of the race-processor pipeline
(`race_processor/utils/geo.py`, `utils/gpx_process.py`, `utils/gpx_override.py`,
`detection/ensemble.py`).

Conventions of the shallow embedding:

* Python `float` is modelled as `ℝ` where the code performs transcendental
  arithmetic (the trigonometry in `geo.py`), and as `ℚ` where values flow
  only through additions, subtractions and comparisons (timestamps,
  elevations, confidences, thresholds).  Timestamps (`datetime`) are
  rationals counting seconds; `t1 - t2` models `(d1 - d2).total_seconds()`.
* Python `int` is `ℤ` (indices are `ℕ`); `x // y` is `Int.fdiv` (floor
  division) and `int(x / y)` is `Int.tdiv` (float division followed by
  truncation toward zero — exact for the magnitudes involved).
* Python `round` rounds half to even; `halfEvenRat` / `halfEvenReal` model
  it (exactly on `ℚ`, and on the real model of float arithmetic).
* `None` is `Option.none`; manifest dictionaries become structures whose
  fields are the keys the correlation code reads or writes (plus
  `original_filename`, a representative key it never touches).
-/

namespace Geo

/-- `math.radians`. -/
noncomputable def radians (x : ℝ) : ℝ := x * Real.pi / 180

/-- `math.degrees`. -/
noncomputable def degrees (x : ℝ) : ℝ := x * 180 / Real.pi

/-- `math.atan2 y x`: the argument of the complex number `x + i*y`, in
`(-π, π]`, with `atan2 0 0 = 0` exactly as in CPython. -/
noncomputable def atan2 (y x : ℝ) : ℝ := Complex.arg ⟨x, y⟩

/-- Python `%` on floats with a positive modulus: `x - m * floor (x / m)`. -/
noncomputable def pymod (x m : ℝ) : ℝ := x - m * ⌊x / m⌋

/-- `geo.haversine_distance` (geo.py lines 8-34). -/
noncomputable def haversine_distance (lat1 lon1 lat2 lon2 : ℝ) : ℝ :=
  let R : ℝ := 6371000
  let phi1 := radians lat1
  let phi2 := radians lat2
  let delta_phi := radians (lat2 - lat1)
  let delta_lambda := radians (lon2 - lon1)
  let a := Real.sin (delta_phi / 2) ^ 2
    + Real.cos phi1 * Real.cos phi2 * Real.sin (delta_lambda / 2) ^ 2
  let c := 2 * atan2 (Real.sqrt a) (Real.sqrt (1 - a))
  R * c

/-- `geo.calculate_bearing` (geo.py lines 37-63): initial bearing from point 1
to point 2, normalised to `[0, 360)` by `(bearing_degrees + 360) % 360`. -/
noncomputable def calculate_bearing (lat1 lon1 lat2 lon2 : ℝ) : ℝ :=
  let phi1 := radians lat1
  let phi2 := radians lat2
  let delta_lambda := radians (lon2 - lon1)
  let x := Real.sin delta_lambda * Real.cos phi2
  let y := Real.cos phi1 * Real.sin phi2
    - Real.sin phi1 * Real.cos phi2 * Real.cos delta_lambda
  let bearing := atan2 x y
  let bearing_degrees := degrees bearing
  pymod (bearing_degrees + 360) 360

end Geo

/-- Python `round` to the nearest integer, ties to even, on rationals. -/
def halfEvenRat (x : ℚ) : ℤ :=
  if Int.fract x < 1 / 2 then ⌊x⌋
  else if 1 / 2 < Int.fract x then ⌊x⌋ + 1
  else if Even ⌊x⌋ then ⌊x⌋ else ⌊x⌋ + 1

/-- Python `round(x, digits)` on rationals. -/
def pyRoundRat (x : ℚ) (digits : ℕ) : ℚ :=
  (halfEvenRat (x * 10 ^ digits) : ℚ) / 10 ^ digits

/-- Python `round` to the nearest integer, ties to even, on the real model. -/
noncomputable def halfEvenReal (x : ℝ) : ℤ :=
  if Int.fract x < 1 / 2 then ⌊x⌋
  else if 1 / 2 < Int.fract x then ⌊x⌋ + 1
  else if Even ⌊x⌋ then ⌊x⌋ else ⌊x⌋ + 1

/-- Python `round(x, digits)` on the real model. -/
noncomputable def pyRoundReal (x : ℝ) (digits : ℕ) : ℝ :=
  (halfEvenReal (x * 10 ^ digits) : ℝ) / 10 ^ digits

namespace GpxProcess

/-- One loop iteration of `calculate_elevation_stats` on the state
`(total_gain, total_loss, anchor_elevation)`. -/
def elevationStep (threshold : ℚ) (acc : ℚ × ℚ × ℚ) (e : ℚ) : ℚ × ℚ × ℚ :=
  let diff := e - acc.2.2
  if threshold ≤ diff then (acc.1 + diff, acc.2.1, e)
  else if diff ≤ -threshold then (acc.1, acc.2.1 + |diff|, e)
  else acc

/-- `gpx_process.calculate_elevation_stats` (gpx_process.py lines 25-63).
Threshold-based accumulator: `anchor` starts at the first sample; a step is
committed (and the anchor moved) only when `|sample - anchor| ≥ threshold`.
The source returns `(0.0, 0.0)` when `len(elevations) < 2`; folding over an
empty tail yields the same result, so the guard needs no separate branch. -/
def calculate_elevation_stats (elevations : List ℚ) (threshold : ℚ) : ℚ × ℚ :=
  match elevations with
  | [] => (0, 0)
  | e0 :: rest =>
    let final := rest.foldl (elevationStep threshold) (0, 0, e0)
    (final.1, final.2.1)

/-- One loop iteration of `calculate_cumulative_elevation_gain_filtered` on
the state `(reversed output so far, current_gain, anchor_elevation)`; each
iteration appends `int(round(current_gain))`. -/
def gainStep (threshold : ℚ) (acc : List ℤ × ℚ × ℚ) (e : ℚ) : List ℤ × ℚ × ℚ :=
  let diff := e - acc.2.2
  if threshold ≤ diff then
    (halfEvenRat (acc.2.1 + diff) :: acc.1, acc.2.1 + diff, e)
  else if diff ≤ -threshold then
    (halfEvenRat acc.2.1 :: acc.1, acc.2.1, e)
  else
    (halfEvenRat acc.2.1 :: acc.1, acc.2.1, acc.2.2)

/-- `gpx_process.calculate_cumulative_elevation_gain_filtered`
(gpx_process.py lines 66-100). -/
def calculate_cumulative_elevation_gain_filtered
    (elevations : List ℚ) (threshold : ℚ) : List ℤ :=
  match elevations with
  | [] => []
  | e0 :: rest =>
    let final := rest.foldl (gainStep threshold) ([], 0, e0)
    0 :: final.1.reverse

end GpxProcess

namespace GpxOverride

/-- A parsed GPX track point (`parse_gpx_with_time` output: every kept point
has a timestamp, and `elevation or 0` never leaves elevation absent). -/
structure TrackPt where
  time : ℚ
  lat : ℚ
  lon : ℚ
  elevation : ℚ
deriving DecidableEq

/-- Default value used with `List.getD`; all indexing in the proofs stays in
range, so it is never observable. -/
def dummyPt : TrackPt := ⟨0, 0, 0, 0⟩

/-- Tail of `gpx_override.calculate_cumulative_distances`
(gpx_override.py lines 56-85): each step appends
`previous + int(round(segment_dist))`. -/
noncomputable def cumulativeDistancesAux (prev : TrackPt) (acc : ℤ) :
    List TrackPt → List ℤ
  | [] => []
  | curr :: rest =>
    let acc1 := acc + halfEvenReal
      (Geo.haversine_distance prev.lat prev.lon curr.lat curr.lon)
    acc1 :: cumulativeDistancesAux curr acc1 rest

/-- `gpx_override.calculate_cumulative_distances` (gpx_override.py 56-85). -/
noncomputable def calculate_cumulative_distances (gpx_points : List TrackPt) :
    List ℤ :=
  match gpx_points with
  | [] => []
  | p0 :: rest => 0 :: cumulativeDistancesAux p0 0 rest

/-- `gpx_override.calculate_cumulative_elevation_gain`
(gpx_override.py lines 88-108): delegates to the filtered computation with a
3 m threshold (the `if not gpx_points` guard coincides with the delegate's
empty case). -/
def calculate_cumulative_elevation_gain (gpx_points : List TrackPt) : List ℤ :=
  GpxProcess.calculate_cumulative_elevation_gain_filtered
    (gpx_points.map (·.elevation)) 3

/-- The linear scan inside `find_gpx_point_by_elapsed_time`
(gpx_override.py lines 134-141): `acc = none` models the initial
`min_diff = float("inf")`, and the update uses strict `<`, so the earliest
index among equal minima is kept. -/
def scanMinAux (target : ℚ) : List TrackPt → ℕ → Option (ℕ × ℚ) → Option (ℕ × ℚ)
  | [], _, acc => acc
  | p :: rest, idx, acc =>
    let diff := |p.time - target|
    match acc with
    | none => scanMinAux target rest (idx + 1) (some (idx, diff))
    | some (mi, md) =>
      if diff < md then scanMinAux target rest (idx + 1) (some (idx, diff))
      else scanMinAux target rest (idx + 1) (some (mi, md))

/-- `gpx_override.find_gpx_point_by_elapsed_time` (gpx_override.py lines
111-147).  The source returns the pair `(None, None)` for an empty track;
here that is `none`. -/
def find_gpx_point_by_elapsed_time (elapsed_seconds : ℚ)
    (gpx_points : List TrackPt) (gpx_start_time : ℚ) : Option (ℕ × ℚ) :=
  match gpx_points with
  | [] => none
  | _ :: _ =>
    let target_time := gpx_start_time + elapsed_seconds
    scanMinAux target_time gpx_points 0 none

/-- `gpx_override.calculate_heading_from_gpx` (gpx_override.py lines 150-192).
The `current_idx is None` guard is handled by the caller in this embedding
(the index is only ever passed when present); `n < 2` (which subsumes the
empty-track guard) returns `none`. -/
noncomputable def calculate_heading_from_gpx (gpx_points : List TrackPt)
    (current_idx : ℕ) : Option ℝ :=
  let n := gpx_points.length
  if n < 2 then none
  else
    let window_size : ℤ := 5
    let se : ℤ × ℤ :=
      if (n : ℤ) < window_size then (0, (n : ℤ) - 1)
      else
        let s := max 0 (min ((current_idx : ℤ) - 2) ((n : ℤ) - window_size))
        (s, s + window_size - 1)
    let ps := gpx_points.getD se.1.toNat dummyPt
    let pe := gpx_points.getD se.2.toNat dummyPt
    some (pyRoundReal (Geo.calculate_bearing ps.lat ps.lon pe.lat pe.lon) 2)

/-- One record of the intake manifest's `images` list, restricted to the keys
the correlation code reads or writes, plus `original_filename` (read only for
logging) and the temporary `_gpx_idx` key (modelled as an optional field that
is `none` when the key is absent). -/
structure Image where
  position_index : ℕ
  original_filename : String
  captured_at : Option ℚ
  latitude : Option ℚ
  longitude : Option ℚ
  altitude_meters : Option ℚ
  distance_from_start : Option ℤ
  elevation_gain_from_start : Option ℤ
  heading_degrees : Option ℝ
  heading_to_prev : Option ℝ
  heading_to_next : Option ℝ
  gpx_idx : Option ℕ

/-- The `stats` dictionary of `override_gps_from_gpx`. -/
structure Stats where
  updated : ℕ
  no_timestamp : ℕ
  large_time_diff : ℕ
  total_time_diff : ℚ
deriving DecidableEq

def initialStats : Stats := ⟨0, 0, 0, 0⟩

/-- First image with a `captured_at` value (gpx_override.py lines 275-279). -/
def firstImgTime (images : List Image) : Option ℚ :=
  images.findSome? (·.captured_at)

end GpxOverride

namespace Geo

open GpxOverride

/-- Backward scan of `calculate_image_headings` (geo.py lines 104-110): the
nearest preceding image with GPS, checking indices `j, j-1, ..., 0` when
called with `j + 1`. -/
def findPrevGps (images : List Image) : ℕ → Option (ℚ × ℚ)
  | 0 => none
  | j + 1 =>
    match images.get? j with
    | some img =>
      match img.latitude, img.longitude with
      | some plat, some plon => some (plat, plon)
      | _, _ => findPrevGps images j
    | none => findPrevGps images j

/-- Forward scan of `calculate_image_headings` (geo.py lines 112-119): the
first image with GPS in the given suffix. -/
def firstGps : List Image → Option (ℚ × ℚ)
  | [] => none
  | img :: rest =>
    match img.latitude, img.longitude with
    | some nlat, some nlon => some (nlat, nlon)
    | _, _ => firstGps rest

/-- The body of `calculate_image_headings` for the image at position `i`
(geo.py lines 95-136).  The Python loop mutates the list in place, but this
pass only ever writes heading fields and only ever reads `latitude` /
`longitude`, so reading prev/next coordinates from the original list is
observationally identical. -/
noncomputable def headingUpdateAt (images : List Image)
    (skip_heading_degrees : Bool) (i : ℕ) (img : Image) : Image :=
  match img.latitude, img.longitude with
  | some lat, some lon =>
    let prev := findPrevGps images i
    let next := firstGps (images.drop (i + 1))
    let img1 := match prev with
      | some pl =>
        let h := pyRoundReal (calculate_bearing lat lon pl.1 pl.2) 2
        { img with heading_to_prev := some h }
      | none => img
    let img2 := match next with
      | some nx =>
        let h := pyRoundReal (calculate_bearing lat lon nx.1 nx.2) 2
        { img1 with heading_to_next := some h }
      | none => img1
    if skip_heading_degrees then img2
    else
      match prev, next with
      | some pl, _ =>
        let h := pyRoundReal (calculate_bearing pl.1 pl.2 lat lon) 2
        { img2 with heading_degrees := some h }
      | none, some nx =>
        let h := pyRoundReal (calculate_bearing lat lon nx.1 nx.2) 2
        { img2 with heading_degrees := some h }
      | none, none => img2
  | _, _ => img

/-- Index-passing map used to run `headingUpdateAt` over the list. -/
def mapWithIndex (f : ℕ → Image → Image) : ℕ → List Image → List Image
  | _, [] => []
  | i, img :: rest => f i img :: mapWithIndex f (i + 1) rest

/-- `geo.calculate_image_headings` (geo.py lines 66-137), specialised to the
manifest's `latitude` / `longitude` keys. -/
noncomputable def calculate_image_headings (images : List Image)
    (skip_heading_degrees : Bool) : List Image :=
  mapWithIndex (headingUpdateAt images skip_heading_degrees) 0 images

end Geo

namespace GpxOverride

/-- Local variables of `override_gps_from_gpx` shared by every loop
iteration (the Python code reads them from the enclosing scope). -/
structure OverrideCtx where
  gpx_points : List TrackPt
  gpx_start_time : ℚ
  first_img_time : ℚ
  offset_seconds : ℚ
  max_time_diff_seconds : ℚ
  cumd : List ℤ
  cumg : List ℤ

/-- One iteration of the per-image loop of `override_gps_from_gpx`
(gpx_override.py lines 313-371): skip and count images without a timestamp;
otherwise match by elapsed time, count a large residual, accumulate the
residual, and overwrite the GPS fields from the matched point.  The
`gpx_points.get? nearest_idx = none` branch is unreachable because the scan
always returns an index below the list length. -/
def processOne (ctx : OverrideCtx) (img : Image) (stats : Stats) :
    Image × Stats :=
  match img.captured_at with
  | none => (img, { stats with no_timestamp := stats.no_timestamp + 1 })
  | some img_time =>
    let elapsed_from_first_photo := img_time - ctx.first_img_time
    let elapsed_in_gpx := elapsed_from_first_photo + ctx.offset_seconds
    match find_gpx_point_by_elapsed_time elapsed_in_gpx ctx.gpx_points
        ctx.gpx_start_time with
    | none => (img, stats)
    | some (nearest_idx, time_diff) =>
      let stats1 :=
        if ctx.max_time_diff_seconds < time_diff then
          { stats with large_time_diff := stats.large_time_diff + 1 }
        else stats
      let stats2 :=
        { stats1 with total_time_diff := stats1.total_time_diff + time_diff }
      match ctx.gpx_points.get? nearest_idx with
      | none => (img, stats2)
      | some nearest_point =>
        ({ img with
            latitude := some (pyRoundRat nearest_point.lat 8),
            longitude := some (pyRoundRat nearest_point.lon 8),
            altitude_meters := some (pyRoundRat nearest_point.elevation 2),
            gpx_idx := some nearest_idx,
            distance_from_start := ctx.cumd.get? nearest_idx,
            elevation_gain_from_start := ctx.cumg.get? nearest_idx },
         { stats2 with updated := stats2.updated + 1 })

/-- The `for img in images` loop of `override_gps_from_gpx`, threading the
stats dictionary through the in-place updates. -/
def processImagesLoop (ctx : OverrideCtx) :
    List Image → Stats → List Image × Stats
  | [], stats => ([], stats)
  | img :: rest, stats =>
    let r1 := processOne ctx img stats
    let r2 := processImagesLoop ctx rest r1.2
    (r1.1 :: r2.1, r2.2)

/-- The first heading pass of `override_gps_from_gpx` (gpx_override.py lines
385-390): pop `_gpx_idx` and, when it was present and a heading can be
computed, set `heading_degrees`. -/
noncomputable def popGpxIdxAndSetHeading (gpx_points : List TrackPt)
    (img : Image) : Image :=
  match img.gpx_idx with
  | some gi =>
    match calculate_heading_from_gpx gpx_points gi with
    | some heading =>
      { img with heading_degrees := some heading, gpx_idx := none }
    | none => { img with gpx_idx := none }
  | none => { img with gpx_idx := none }

/-- `gpx_override.override_gps_from_gpx` (gpx_override.py lines 195-410),
taking the parsed manifest images and parsed GPX points directly (file
loading, console output and the duration diagnostics are I/O-only and carry
no data flow into the result).  Returns the updated image list and the stats
dictionary. -/
noncomputable def override_gps_from_gpx (images : List Image)
    (gpx_points : List TrackPt) (offset_seconds max_time_diff_seconds : ℚ) :
    List Image × Stats :=
  if images.isEmpty then (images, initialStats)
  else
    match gpx_points with
    | [] => (images, initialStats)
    | g0 :: _ =>
      let cumd := calculate_cumulative_distances gpx_points
      let cumg := calculate_cumulative_elevation_gain gpx_points
      match firstImgTime images with
      | none => (images, initialStats)
      | some first_img_time =>
        let ctx : OverrideCtx :=
          ⟨gpx_points, g0.time, first_img_time, offset_seconds,
           max_time_diff_seconds, cumd, cumg⟩
        let r := processImagesLoop ctx images initialStats
        let images2 := r.1.map (popGpxIdxAndSetHeading gpx_points)
        let images3 := Geo.calculate_image_headings images2 true
        (images3, r.2)

end GpxOverride

namespace Ensemble

/-- `ensemble.DetectionSource`. -/
inductive DetectionSource where
  | face_yolo_n
  | face_yolo_m
  | body_pose_head
  | plate
  | vehicle
  | demo
  | edge_wrapped
deriving DecidableEq

/-- `ensemble.BlurRegion`: `x`, `y` are the centre of the region. -/
structure BlurRegion where
  x : ℤ
  y : ℤ
  width : ℤ
  height : ℤ
  confidence : ℚ
  source : DetectionSource
  spans_edge : Bool
deriving DecidableEq

/-- `r.x - r.width // 2`, the left edge of a region's box. -/
def regionLeft (r : BlurRegion) : ℤ := r.x - Int.fdiv r.width 2

/-- `r.x + r.width // 2`, the right edge of a region's box. -/
def regionRight (r : BlurRegion) : ℤ := r.x + Int.fdiv r.width 2

/-- `r.y - r.height // 2`, the top edge of a region's box. -/
def regionTop (r : BlurRegion) : ℤ := r.y - Int.fdiv r.height 2

/-- `r.y + r.height // 2`, the bottom edge of a region's box. -/
def regionBottom (r : BlurRegion) : ℤ := r.y + Int.fdiv r.height 2

/-- `ensemble.translate_edge_detections` (ensemble.py lines 79-151):
classify each detection from the edge-padded pass by its horizontal extent
relative to the original width and translate / flag accordingly.  (`pad_width`
is accepted and unused, exactly as in the source; the `left_width` /
`right_width` locals of the straddling branch are computed but never used.) -/
def translate_edge_detections :
    List BlurRegion → ℤ → ℤ → List BlurRegion
  | [], _, _ => []
  | region :: rest, original_width, pad_width =>
    let region_left := regionLeft region
    let region_right := regionRight region
    let wrapped_x :=
      if region.x < original_width then region.x
      else region.x - original_width
    let duplicateZone : BlurRegion :=
      { region with x := region.x - original_width,
                    source := DetectionSource.edge_wrapped,
                    spans_edge := false }
    let straddling : BlurRegion :=
      { region with x := wrapped_x,
                    source := DetectionSource.edge_wrapped,
                    spans_edge := true }
    let interior : BlurRegion := { region with spans_edge := false }
    let translatedHere :=
      if original_width ≤ region_left then [duplicateZone]
      else if original_width < region_right ∧ region_left < original_width then
        [straddling]
      else if region_right ≤ original_width then [interior]
      else []
    translatedHere ++ translate_edge_detections rest original_width pad_width

/-- `PrivacyBlurEnsemble._iou` (ensemble.py lines 750-778). -/
def iou (a b : BlurRegion) : ℚ :=
  let inter_x1 := max (regionLeft a) (regionLeft b)
  let inter_y1 := max (regionTop a) (regionTop b)
  let inter_x2 := min (regionRight a) (regionRight b)
  let inter_y2 := min (regionBottom a) (regionBottom b)
  if inter_x2 ≤ inter_x1 ∨ inter_y2 ≤ inter_y1 then 0
  else
    let inter_area := (inter_x2 - inter_x1) * (inter_y2 - inter_y1)
    let union_area := a.width * a.height + b.width * b.height - inter_area
    if 0 < union_area then (inter_area : ℚ) / (union_area : ℚ) else 0

/-- `PrivacyBlurEnsemble._merge_cluster` (ensemble.py lines 780-798).
Clusters are always non-empty; the `[]` case is unreachable. -/
def merge_cluster : List BlurRegion → BlurRegion
  | [] => ⟨0, 0, 0, 0, 0, DetectionSource.demo, false⟩
  | r :: rs =>
    let min_x := rs.foldl (fun m o => min m (regionLeft o)) (regionLeft r)
    let max_x := rs.foldl (fun m o => max m (regionRight o)) (regionRight r)
    let min_y := rs.foldl (fun m o => min m (regionTop o)) (regionTop r)
    let max_y := rs.foldl (fun m o => max m (regionBottom o)) (regionBottom r)
    let spans_edge := (r :: rs).any (·.spans_edge)
    let confidence := rs.foldl (fun m o => max m o.confidence) r.confidence
    ⟨Int.tdiv (min_x + max_x) 2, Int.tdiv (min_y + max_y) 2,
     max_x - min_x, max_y - min_y, confidence, r.source, spans_edge⟩

/-- The greedy clustering loop of `PrivacyBlurEnsemble._merge_overlapping`
(ensemble.py lines 728-748) on the area-sorted list.  The source walks the
sorted list with a `used` index set; because every unconsumed later region is
compared (by IoU) against the current seed and consumed exactly when the IoU
exceeds the threshold, the loop is equivalent to: seed on the head, partition
the tail into cluster members and survivors, recurse on the survivors.  The
survivor list is a sublist of the tail, so a `fuel` bounded below by the list
length (the caller passes the length itself) never runs out; the bare
recursion would be well-founded but not evaluable by the kernel. -/
def merge_overlapping_aux (iou_threshold : ℚ) :
    ℕ → List BlurRegion → List BlurRegion
  | _, [] => []
  | 0, _ :: _ => []
  | fuel + 1, region :: rest =>
    let overlaps := rest.filter fun other => decide (iou_threshold < iou region other)
    let remaining := rest.filter fun other => !decide (iou_threshold < iou region other)
    merge_cluster (region :: overlaps) ::
      merge_overlapping_aux iou_threshold fuel remaining

/-- `PrivacyBlurEnsemble._merge_overlapping` (ensemble.py lines 716-748):
sort by area, largest first (`sorted(..., reverse=True)` is a stable
descending sort, which `mergeSort` with the relation `area b ≤ area a`
reproduces), then cluster greedily.  The threshold defaults to `0.3` at the
call site. -/
def merge_overlapping (regions : List BlurRegion) (iou_threshold : ℚ) :
    List BlurRegion :=
  match regions with
  | [] => []
  | _ :: _ =>
    let sorted := regions.mergeSort fun a b =>
      decide (b.width * b.height ≤ a.width * a.height)
    merge_overlapping_aux iou_threshold regions.length sorted

/-- Statement-side predicate (from the spec invariant in §3): the region's
box, read half-open as covering pixel columns `[left, right)` and rows
`[top, bottom)`, references only pixels of the original
`[0, width) x [0, height)` image. -/
abbrev inOriginalBounds (W H : ℤ) (r : BlurRegion) : Prop :=
  0 ≤ regionLeft r ∧ regionRight r ≤ W ∧
  0 ≤ regionTop r ∧ regionBottom r ≤ H

/-- Statement-side predicate: a well-formed detection box of the edge-padded
pass — non-negative dimensions and a box inside the padded image
`[0, W + pad) x [0, H)`. -/
abbrev inPaddedBounds (W H pad : ℤ) (r : BlurRegion) : Prop :=
  0 ≤ r.width ∧ 0 ≤ r.height ∧
  0 ≤ regionLeft r ∧ regionRight r ≤ W + pad ∧
  0 ≤ regionTop r ∧ regionBottom r ≤ H

end Ensemble

namespace GpxOverride

/-- Statement-side projection to the fields the correlation pass never
touches: position index, filename, capture timestamp. -/
def frameFields (img : Image) : ℕ × String × Option ℚ :=
  (img.position_index, img.original_filename, img.captured_at)

/-- Statement-side predicate: the image has no usable timestamp (the loop's
`if not captured_at: stats["no_timestamp"] += 1; continue` branch). -/
def noTimestampB (img : Image) : Bool :=
  img.captured_at.isNone

/-- Statement-side predicate: the image has a timestamp and its matched
residual exceeds the warning threshold (the loop's
`if time_diff > max_time_diff_seconds` branch). -/
def largeDiffB (gpx_points : List TrackPt)
    (gpx_start_time first_img_time offset_seconds maxd : ℚ)
    (img : Image) : Bool :=
  match img.captured_at with
  | none => false
  | some t =>
    match find_gpx_point_by_elapsed_time (t - first_img_time + offset_seconds)
        gpx_points gpx_start_time with
    | none => false
    | some (_, md) => decide (maxd < md)

end GpxOverride


/-! ## Theorems -/

section ElevationAccumulator

open GpxProcess

/-- C4: the documented scenario.  On `[100, 100.5, 99.8, 103, 101, 98]` with
threshold `1.0` the accumulator commits the rise `100 → 103` (gain 3) and the
drops `103 → 101` and `101 → 98` (loss 5); the sub-threshold `±0.5/±0.7`
excursions contribute nothing because the anchor only moves on a committed
change. -/
theorem elevation_stats_scenario :
    calculate_elevation_stats [100, 100.5, 99.8, 103, 101, 98] 1 = (3, 5) := by
  simp only [calculate_elevation_stats, List.foldl_cons, List.foldl_nil]
  norm_num [elevationStep]

/-- C3 counterexample: the claim fails as stated.  With `t = 1`, `ε = 1/2`,
`c = 0`, every sample of `[1/2, -1/2]` lies within `±(t - ε)` of `c`, yet the
accumulator commits the drop from the anchor `1/2` (the first sample) to
`-1/2` (difference `-1 ≤ -t`), so the result is `(0, 1)`, not `(0, 0)`. -/
theorem elevation_stats_noise_counterexample :
    (0 : ℚ) < 1 ∧ (0 : ℚ) < 1 / 2 ∧ (1 / 2 : ℚ) < 1 ∧
    (∀ e ∈ [(1 : ℚ) / 2, -(1 / 2 : ℚ)], |e - 0| ≤ 1 - 1 / 2) ∧
    calculate_elevation_stats [1 / 2, -(1 / 2)] 1 ≠ (0, 0) := by
  refine ⟨by norm_num, by norm_num, by norm_num, ?_, ?_⟩
  · intro e he
    fin_cases he <;> norm_num [abs_le]
  · simp only [calculate_elevation_stats, List.foldl_cons, List.foldl_nil]
    norm_num [elevationStep]

/-- C3 amended: the oscillation band must be anchored at the *first sample*
(the accumulator's anchor), not at an arbitrary constant: if every later
sample lies within `t - ε` of the first sample, no difference from the anchor
ever reaches the threshold, the anchor never moves, and the result is
`(gain, loss) = (0, 0)`. -/
theorem elevation_stats_noise_robust (t e0 eps : ℚ) (rest : List ℚ)
    (heps : 0 < eps) (hepst : eps < t)
    (hnoise : ∀ e ∈ rest, |e - e0| ≤ t - eps) :
    calculate_elevation_stats (e0 :: rest) t = (0, 0) := by
  have key : ∀ (l : List ℚ), (∀ e ∈ l, |e - e0| ≤ t - eps) →
      l.foldl (elevationStep t) (0, 0, e0) = (0, 0, e0) := by
    intro l
    induction l with
    | nil => intro _; rfl
    | cons e l ih =>
      intro h
      have he := h e (List.mem_cons_self _ _)
      rw [abs_le] at he
      have hstep : elevationStep t (0, 0, e0) e = (0, 0, e0) := by
        simp only [elevationStep]
        split_ifs with h1 h2
        · exact absurd h1 (by linarith)
        · exact absurd h2 (by linarith)
        · rfl
      rw [List.foldl_cons, hstep]
      exact ih fun x hx => h x (List.mem_cons_of_mem _ hx)
  simp only [calculate_elevation_stats]
  rw [key rest hnoise]

/-- Witness for the amended C3 at a concrete input. -/
theorem elevation_stats_noise_robust_witness :
    (0 : ℚ) < 1 / 2 ∧ (1 / 2 : ℚ) < 2 ∧
    (∀ e ∈ [(101 : ℚ), 99, 100.5], |e - 100| ≤ 2 - 1 / 2) ∧
    calculate_elevation_stats (100 :: [(101 : ℚ), 99, 100.5]) 2 = (0, 0) := by
  have hn : ∀ e ∈ [(101 : ℚ), 99, 100.5], |e - 100| ≤ 2 - 1 / 2 := by
    intro e he
    fin_cases he <;> norm_num [abs_le]
  exact ⟨by norm_num, by norm_num, hn,
    elevation_stats_noise_robust 2 100 (1 / 2) _ (by norm_num) (by norm_num) hn⟩

end ElevationAccumulator

section GeoMath

/-- Python float `%` with the positive modulus 360 lands in `[0, 360)`
(`x - 360 * floor (x / 360)`). -/
theorem pymod_mem (x : ℝ) : 0 ≤ Geo.pymod x 360 ∧ Geo.pymod x 360 < 360 := by
  have h1 : (⌊x / 360⌋ : ℝ) ≤ x / 360 := Int.floor_le _
  have h2 : x / 360 < ⌊x / 360⌋ + 1 := Int.lt_floor_add_one _
  have hx : x / 360 * 360 = x := by field_simp
  simp only [Geo.pymod]
  constructor <;> nlinarith

/-- For identical endpoints both arctangent arguments vanish, `atan2 0 0 = 0`,
and `(0 + 360) % 360 = 0`. -/
theorem bearing_self (lat lon : ℝ) : Geo.calculate_bearing lat lon lat lon = 0 := by
  simp only [Geo.calculate_bearing]
  have hx : Real.sin (Geo.radians (lon - lon)) * Real.cos (Geo.radians lat) = 0 := by
    simp only [Geo.radians, sub_self, zero_mul, zero_div, Real.sin_zero]
  have hy : Real.cos (Geo.radians lat) * Real.sin (Geo.radians lat)
      - Real.sin (Geo.radians lat) * Real.cos (Geo.radians lat)
        * Real.cos (Geo.radians (lon - lon)) = 0 := by
    simp only [Geo.radians, sub_self, zero_mul, zero_div, Real.cos_zero, mul_one]
    ring
  rw [hx, hy]
  have harg : Geo.atan2 0 0 = 0 := by
    have hz : (⟨0, 0⟩ : ℂ) = 0 := by
      apply Complex.ext <;> simp
    simp only [Geo.atan2]
    rw [hz, Complex.arg_zero]
  rw [harg]
  have hdeg : Geo.degrees 0 = 0 := by simp [Geo.degrees]
  rw [hdeg]
  simp only [Geo.pymod, zero_add]
  norm_num

/-- C8: `calculate_bearing` always returns a value in `[0, 360)` (the final
`(deg + 360) % 360` does so for every real argument), and on identical input
points both arctangent arguments vanish, so the result is the stable fallback
`0.0` — the function is total, no exception path exists. -/
theorem bearing_range_and_identical_fallback :
    (∀ lat1 lon1 lat2 lon2 : ℝ,
      0 ≤ Geo.calculate_bearing lat1 lon1 lat2 lon2 ∧
      Geo.calculate_bearing lat1 lon1 lat2 lon2 < 360) ∧
    (∀ lat lon : ℝ, Geo.calculate_bearing lat lon lat lon = 0) := by
  constructor
  · intro lat1 lon1 lat2 lon2
    simp only [Geo.calculate_bearing]
    exact pymod_mem _
  · exact bearing_self

end GeoMath

section TimeCorrelation

open GpxOverride

/-- Invariant of the linear scan inside `find_gpx_point_by_elapsed_time`:
starting from accumulator `(mi, md)`, the scan either returns the accumulator
unchanged (when nothing in the remaining list strictly improves on `md`) or
the *earliest* strict improvement, which is then minimal over the scanned
list and strictly better than everything before it. -/
theorem scanMinAux_spec (target : ℚ) :
    ∀ (l : List TrackPt) (idx mi : ℕ) (md : ℚ),
    ∃ mj mdj, scanMinAux target l idx (some (mi, md)) = some (mj, mdj) ∧
      mdj ≤ md ∧
      (∀ k, k < l.length → mdj ≤ |(l.getD k dummyPt).time - target|) ∧
      ((mj = mi ∧ mdj = md) ∨
        (∃ k, k < l.length ∧ mj = idx + k ∧
          mdj = |(l.getD k dummyPt).time - target| ∧ mdj < md ∧
          (∀ j, j < k → mdj < |(l.getD j dummyPt).time - target|))) := by
  intro l
  induction l with
  | nil =>
    intro idx mi md
    refine ⟨mi, md, rfl, le_refl _, ?_, Or.inl ⟨rfl, rfl⟩⟩
    intro k hk
    simp at hk
  | cons p rest ih =>
    intro idx mi md
    by_cases h : |p.time - target| < md
    · obtain ⟨mj, mdj, heq, hle, hall, hcase⟩ := ih (idx + 1) idx (|p.time - target|)
      refine ⟨mj, mdj, ?_, le_trans hle (le_of_lt h), ?_, ?_⟩
      · simpa [scanMinAux, h] using heq
      · intro k hk
        cases k with
        | zero => simpa using hle
        | succ k =>
          simp only [List.getD_cons_succ]
          exact hall k (by simpa using hk)
      · rcases hcase with ⟨hmj, hmdj⟩ | ⟨k, hk, hmj, hval, hlt, hstrict⟩
        · refine Or.inr ⟨0, by simp, by omega, by simpa using hmdj, ?_, ?_⟩
          · rw [hmdj]; exact h
          · intro j hj; omega
        · refine Or.inr ⟨k + 1, by simp; omega, by omega, ?_, lt_trans hlt h, ?_⟩
          · simpa using hval
          · intro j hj
            cases j with
            | zero => simpa using hlt
            | succ j =>
              simp only [List.getD_cons_succ]
              exact hstrict j (by omega)
    · obtain ⟨mj, mdj, heq, hle, hall, hcase⟩ := ih (idx + 1) mi md
      refine ⟨mj, mdj, ?_, hle, ?_, ?_⟩
      · simpa [scanMinAux, h] using heq
      · intro k hk
        cases k with
        | zero => simpa using le_trans hle (not_lt.mp h)
        | succ k =>
          simp only [List.getD_cons_succ]
          exact hall k (by simpa using hk)
      · rcases hcase with ⟨hmj, hmdj⟩ | ⟨k, hk, hmj, hval, hlt, hstrict⟩
        · exact Or.inl ⟨hmj, hmdj⟩
        · refine Or.inr ⟨k + 1, by simp; omega, by omega, ?_, hlt, ?_⟩
          · simpa using hval
          · intro j hj
            cases j with
            | zero => simpa using lt_of_lt_of_le hlt (not_lt.mp h)
            | succ j =>
              simp only [List.getD_cons_succ]
              exact hstrict j (by omega)

/-- Shared characterization of `find_gpx_point_by_elapsed_time` on a
non-empty track: it returns the earliest index attaining the minimal absolute
time difference to `gpx_start_time + elapsed_seconds`, together with that
minimal (hence non-negative) difference. -/
theorem find_gpx_spec (elapsed_seconds gpx_start_time : ℚ)
    (gpx_points : List TrackPt) (hne : gpx_points ≠ []) :
    ∃ mi md,
      find_gpx_point_by_elapsed_time elapsed_seconds gpx_points gpx_start_time
        = some (mi, md) ∧
      mi < gpx_points.length ∧ 0 ≤ md ∧
      md = |(gpx_points.getD mi dummyPt).time
            - (gpx_start_time + elapsed_seconds)| ∧
      (∀ k, k < gpx_points.length →
        md ≤ |(gpx_points.getD k dummyPt).time
              - (gpx_start_time + elapsed_seconds)|) ∧
      (∀ j, j < mi →
        md < |(gpx_points.getD j dummyPt).time
              - (gpx_start_time + elapsed_seconds)|) := by
  cases gpx_points with
  | nil => exact absurd rfl hne
  | cons p rest =>
    obtain ⟨mj, mdj, heq, hle, hall, hcase⟩ :=
      scanMinAux_spec (gpx_start_time + elapsed_seconds) rest 1 0
        (|p.time - (gpx_start_time + elapsed_seconds)|)
    refine ⟨mj, mdj, ?_, ?_, ?_, ?_, ?_, ?_⟩
    · simp only [find_gpx_point_by_elapsed_time]
      rw [show scanMinAux (gpx_start_time + elapsed_seconds) (p :: rest) 0 none
            = scanMinAux (gpx_start_time + elapsed_seconds) rest 1
                (some (0, |p.time - (gpx_start_time + elapsed_seconds)|)) from
          by simp [scanMinAux]]
      exact heq
    · rcases hcase with ⟨hmj, _⟩ | ⟨k, hk, hmj, _⟩
      · simp [hmj]
      · simp only [List.length_cons]; omega
    · rcases hcase with ⟨_, hmdj⟩ | ⟨k, _, _, hval, _, _⟩
      · rw [hmdj]; exact abs_nonneg _
      · rw [hval]; exact abs_nonneg _
    · rcases hcase with ⟨hmj, hmdj⟩ | ⟨k, hk, hmj, hval, _, _⟩
      · subst hmj; simpa using hmdj
      · have hk1 : mj = k + 1 := by omega
        subst hk1
        simpa using hval
    · intro k hk
      cases k with
      | zero => simpa using hle
      | succ k =>
        simp only [List.getD_cons_succ]
        exact hall k (by simpa using hk)
    · intro j hj
      rcases hcase with ⟨hmj, _⟩ | ⟨k, hk, hmj, hval, hlt, hstrict⟩
      · omega
      · cases j with
        | zero => simpa using hlt
        | succ j =>
          simp only [List.getD_cons_succ]
          exact hstrict j (by omega)

/-- C10: on a non-empty track, `find_gpx_point_by_elapsed_time` returns an
index in `[0, n)` together with a non-negative residual equal to the minimum
over all points of `|point.time - target_time|`, and among all indices
achieving that minimum it returns the smallest (the scan updates only on a
strict improvement), so correlation output is deterministic even when two
track points are equidistant in time from the target. -/
theorem find_gpx_point_least_argmin (elapsed_seconds gpx_start_time : ℚ)
    (gpx_points : List TrackPt) (hne : gpx_points ≠ []) :
    ∃ mi md,
      find_gpx_point_by_elapsed_time elapsed_seconds gpx_points gpx_start_time
        = some (mi, md) ∧
      mi < gpx_points.length ∧ 0 ≤ md ∧
      md = |(gpx_points.getD mi dummyPt).time
            - (gpx_start_time + elapsed_seconds)| ∧
      (∀ k, k < gpx_points.length →
        md ≤ |(gpx_points.getD k dummyPt).time
              - (gpx_start_time + elapsed_seconds)|) ∧
      (∀ j, j < mi →
        md < |(gpx_points.getD j dummyPt).time
              - (gpx_start_time + elapsed_seconds)|) :=
  find_gpx_spec elapsed_seconds gpx_start_time gpx_points hne

/-- Witness for C10 at a concrete two-point track, equidistant target. -/
theorem find_gpx_point_least_argmin_witness :
    ([⟨0, 0, 0, 0⟩, ⟨10, 0, 1, 0⟩] : List TrackPt) ≠ [] ∧
    (∃ mi md,
      find_gpx_point_by_elapsed_time 5
          ([⟨0, 0, 0, 0⟩, ⟨10, 0, 1, 0⟩] : List TrackPt) 0 = some (mi, md) ∧
      mi < ([⟨0, 0, 0, 0⟩, ⟨10, 0, 1, 0⟩] : List TrackPt).length ∧ 0 ≤ md ∧
      md = |(([⟨0, 0, 0, 0⟩, ⟨10, 0, 1, 0⟩] : List TrackPt).getD mi
              dummyPt).time - (0 + 5)| ∧
      (∀ k, k < ([⟨0, 0, 0, 0⟩, ⟨10, 0, 1, 0⟩] : List TrackPt).length →
        md ≤ |(([⟨0, 0, 0, 0⟩, ⟨10, 0, 1, 0⟩] : List TrackPt).getD k
                dummyPt).time - (0 + 5)|) ∧
      (∀ j, j < mi →
        md < |(([⟨0, 0, 0, 0⟩, ⟨10, 0, 1, 0⟩] : List TrackPt).getD j
                dummyPt).time - (0 + 5)|)) :=
  ⟨by decide, find_gpx_point_least_argmin 5 0 _ (by decide)⟩

/-- Quadrangle inequality for absolute values: moving the reference point
rightwards can only make the farther-right of two points comparatively
closer. -/
theorem abs_quadrangle (a b s t : ℚ) (hab : a ≤ b) (hst : s ≤ t) :
    |b - t| - |a - t| ≤ |b - s| - |a - s| := by
  rcases abs_cases (b - t) with ⟨h1, h1s⟩ | ⟨h1, h1s⟩ <;>
  rcases abs_cases (a - t) with ⟨h2, h2s⟩ | ⟨h2, h2s⟩ <;>
  rcases abs_cases (b - s) with ⟨h3, h3s⟩ | ⟨h3, h3s⟩ <;>
  rcases abs_cases (a - s) with ⟨h4, h4s⟩ | ⟨h4, h4s⟩ <;>
  rw [h1, h2, h3, h4] <;> linarith

/-- A time-sorted track has non-decreasing times under positional access. -/
theorem pairwise_time_getD (pts : List TrackPt)
    (h : List.Pairwise (fun p q : TrackPt => p.time ≤ q.time) pts)
    (a b : ℕ) (hab : a < b) (hb : b < pts.length) :
    (pts.getD a dummyPt).time ≤ (pts.getD b dummyPt).time := by
  have ha : a < pts.length := lt_trans hab hb
  rw [List.getD_eq_get pts dummyPt ha, List.getD_eq_get pts dummyPt hb]
  exact List.pairwise_iff_get.mp h ⟨a, ha⟩ ⟨b, hb⟩ hab

/-- C5: on a non-empty time-sorted track, the timestamp of the matched point
is monotone in the elapsed-time offset: increasing the elapsed time by any
`d > 0` never moves the match to an earlier track time (first-index
tie-breaking included). -/
theorem matched_time_monotone (gpx_points : List TrackPt)
    (gpx_start_time e d : ℚ) (hne : gpx_points ≠ [])
    (hsorted : List.Pairwise (fun p q : TrackPt => p.time ≤ q.time) gpx_points)
    (hd : 0 < d) (i j : ℕ) (ri rj : ℚ)
    (h1 : find_gpx_point_by_elapsed_time e gpx_points gpx_start_time
          = some (i, ri))
    (h2 : find_gpx_point_by_elapsed_time (e + d) gpx_points gpx_start_time
          = some (j, rj)) :
    (gpx_points.getD i dummyPt).time ≤ (gpx_points.getD j dummyPt).time := by
  obtain ⟨mi1, md1, heq1, hlen1, _, hval1, hall1, hstrict1⟩ :=
    find_gpx_spec e gpx_start_time gpx_points hne
  obtain ⟨mi2, md2, heq2, hlen2, _, hval2, hall2, hstrict2⟩ :=
    find_gpx_spec (e + d) gpx_start_time gpx_points hne
  have e1 := Option.some.inj (h1.symm.trans heq1)
  have e2 := Option.some.inj (h2.symm.trans heq2)
  have hi : i = mi1 := congrArg Prod.fst e1
  have hri : ri = md1 := congrArg Prod.snd e1
  have hj : j = mi2 := congrArg Prod.fst e2
  have hrj : rj = md2 := congrArg Prod.snd e2
  subst hi; subst hri; subst hj; subst hrj
  by_contra hcon
  push_neg at hcon
  have hji : j < i := by
    rcases lt_trichotomy i j with hlt | heq | hgt
    · have := pairwise_time_getD _ hsorted i j hlt hlen2
      linarith
    · rw [heq] at hcon; linarith
    · exact hgt
  have hstr := hstrict1 j hji
  have hmin := hall2 i hlen1
  rw [hval1] at hstr
  rw [hval2] at hmin
  have hq := abs_quadrangle ((gpx_points.getD j dummyPt).time)
      ((gpx_points.getD i dummyPt).time)
      (gpx_start_time + e) (gpx_start_time + (e + d))
      (le_of_lt hcon) (by linarith)
  linarith

/-- Witness for C5 at a concrete two-point track and offset shift `+10`. -/
theorem matched_time_monotone_witness :
    ([⟨0, 0, 0, 0⟩, ⟨10, 0, 1, 0⟩] : List TrackPt) ≠ [] ∧
    List.Pairwise (fun p q : TrackPt => p.time ≤ q.time)
      ([⟨0, 0, 0, 0⟩, ⟨10, 0, 1, 0⟩] : List TrackPt) ∧
    (0 : ℚ) < 10 ∧
    find_gpx_point_by_elapsed_time 0
      ([⟨0, 0, 0, 0⟩, ⟨10, 0, 1, 0⟩] : List TrackPt) 0 = some (0, 0) ∧
    find_gpx_point_by_elapsed_time (0 + 10)
      ([⟨0, 0, 0, 0⟩, ⟨10, 0, 1, 0⟩] : List TrackPt) 0 = some (1, 0) ∧
    (([⟨0, 0, 0, 0⟩, ⟨10, 0, 1, 0⟩] : List TrackPt).getD 0 dummyPt).time ≤
      (([⟨0, 0, 0, 0⟩, ⟨10, 0, 1, 0⟩] : List TrackPt).getD 1 dummyPt).time := by
  have hf1 : find_gpx_point_by_elapsed_time 0
      ([⟨0, 0, 0, 0⟩, ⟨10, 0, 1, 0⟩] : List TrackPt) 0 = some (0, 0) := by
    norm_num [find_gpx_point_by_elapsed_time, scanMinAux]
  have hf2 : find_gpx_point_by_elapsed_time (0 + 10)
      ([⟨0, 0, 0, 0⟩, ⟨10, 0, 1, 0⟩] : List TrackPt) 0 = some (1, 0) := by
    norm_num [find_gpx_point_by_elapsed_time, scanMinAux]
  exact ⟨by decide, by decide, by norm_num, hf1, hf2,
    matched_time_monotone _ 0 0 10 (by decide) (by decide) (by norm_num)
      0 1 0 0 hf1 hf2⟩

end TimeCorrelation

section HeadingWindow

open GpxOverride

/-- C9: for a track with at least five points and any valid index, the
smoothed heading is the (rounded) bearing across a window of exactly five
consecutive points containing the index — the window `[s, s+4]` is the
centred window `[i-2, i+2]` clamped into the track; for tracks of two to four
points it is the bearing from the first point to the last. -/
theorem heading_uses_five_point_window (gpx_points : List TrackPt) :
    (∀ i, 5 ≤ gpx_points.length → i < gpx_points.length →
      ∃ s, s + 4 < gpx_points.length ∧ s ≤ i ∧ i ≤ s + 4 ∧
        calculate_heading_from_gpx gpx_points i =
          some (pyRoundReal (Geo.calculate_bearing
            (gpx_points.getD s dummyPt).lat (gpx_points.getD s dummyPt).lon
            (gpx_points.getD (s + 4) dummyPt).lat
            (gpx_points.getD (s + 4) dummyPt).lon) 2)) ∧
    (∀ i, 2 ≤ gpx_points.length → gpx_points.length < 5 →
      calculate_heading_from_gpx gpx_points i =
        some (pyRoundReal (Geo.calculate_bearing
          (gpx_points.getD 0 dummyPt).lat (gpx_points.getD 0 dummyPt).lon
          (gpx_points.getD (gpx_points.length - 1) dummyPt).lat
          (gpx_points.getD (gpx_points.length - 1) dummyPt).lon) 2)) := by
  constructor
  · intro i h5 hi
    have h2 : ¬ (gpx_points.length < 2) := by omega
    have h5i : ¬ ((gpx_points.length : ℤ) < 5) := by omega
    refine ⟨(max 0 (min ((i : ℤ) - 2) ((gpx_points.length : ℤ) - 5))).toNat,
      by omega, by omega, by omega, ?_⟩
    have hEnd :
        (max 0 (min ((i : ℤ) - 2) ((gpx_points.length : ℤ) - 5)) + 5 - 1).toNat
        = (max 0 (min ((i : ℤ) - 2)
            ((gpx_points.length : ℤ) - 5))).toNat + 4 := by
      omega
    simp only [calculate_heading_from_gpx, h2, h5i, if_false, ite_false]
    rw [hEnd]
  · intro i h2n h5n
    have h2 : ¬ (gpx_points.length < 2) := by omega
    have h5i : ((gpx_points.length : ℤ) < 5) := by omega
    have hEnd : ((gpx_points.length : ℤ) - 1).toNat = gpx_points.length - 1 := by
      omega
    simp only [calculate_heading_from_gpx, h2, h5i, if_false, if_true,
      ite_true, Int.toNat_zero]
    rw [hEnd]

/-- Witness for C9 on a five-point track at the centre index. -/
theorem heading_uses_five_point_window_witness :
    5 ≤ ([⟨0, 0, 0, 0⟩, ⟨1, 1, 1, 0⟩, ⟨2, 2, 2, 0⟩, ⟨3, 3, 3, 0⟩,
          ⟨4, 4, 4, 0⟩] : List TrackPt).length ∧
    2 < ([⟨0, 0, 0, 0⟩, ⟨1, 1, 1, 0⟩, ⟨2, 2, 2, 0⟩, ⟨3, 3, 3, 0⟩,
          ⟨4, 4, 4, 0⟩] : List TrackPt).length ∧
    (∃ s, s + 4 < ([⟨0, 0, 0, 0⟩, ⟨1, 1, 1, 0⟩, ⟨2, 2, 2, 0⟩, ⟨3, 3, 3, 0⟩,
          ⟨4, 4, 4, 0⟩] : List TrackPt).length ∧ s ≤ 2 ∧ 2 ≤ s + 4 ∧
      calculate_heading_from_gpx
          ([⟨0, 0, 0, 0⟩, ⟨1, 1, 1, 0⟩, ⟨2, 2, 2, 0⟩, ⟨3, 3, 3, 0⟩,
            ⟨4, 4, 4, 0⟩] : List TrackPt) 2 =
        some (pyRoundReal (Geo.calculate_bearing
          (([⟨0, 0, 0, 0⟩, ⟨1, 1, 1, 0⟩, ⟨2, 2, 2, 0⟩, ⟨3, 3, 3, 0⟩,
             ⟨4, 4, 4, 0⟩] : List TrackPt).getD s dummyPt).lat
          (([⟨0, 0, 0, 0⟩, ⟨1, 1, 1, 0⟩, ⟨2, 2, 2, 0⟩, ⟨3, 3, 3, 0⟩,
             ⟨4, 4, 4, 0⟩] : List TrackPt).getD s dummyPt).lon
          (([⟨0, 0, 0, 0⟩, ⟨1, 1, 1, 0⟩, ⟨2, 2, 2, 0⟩, ⟨3, 3, 3, 0⟩,
             ⟨4, 4, 4, 0⟩] : List TrackPt).getD (s + 4) dummyPt).lat
          (([⟨0, 0, 0, 0⟩, ⟨1, 1, 1, 0⟩, ⟨2, 2, 2, 0⟩, ⟨3, 3, 3, 0⟩,
             ⟨4, 4, 4, 0⟩] : List TrackPt).getD (s + 4) dummyPt).lon) 2)) :=
  ⟨by decide, by decide,
    (heading_uses_five_point_window _).1 2 (by decide) (by decide)⟩

end HeadingWindow

section RegionMerger

open Ensemble

/-- IoU is symmetric: intersection bounds and the union area are unchanged
when the arguments swap. -/
theorem iou_comm (a b : BlurRegion) : iou a b = iou b a := by
  simp only [iou]
  rw [max_comm (regionLeft a) (regionLeft b), max_comm (regionTop a) (regionTop b),
    min_comm (regionRight a) (regionRight b),
    min_comm (regionBottom a) (regionBottom b),
    add_comm (a.width * a.height) (b.width * b.height)]

/-- Merging a one-region cluster reproduces the region exactly when its
width and height are even; for odd dimensions `2 * (w // 2)` loses a pixel,
which is what breaks the claim as stated. -/
theorem merge_cluster_singleton (r : BlurRegion) (hw : Even r.width)
    (hh : Even r.height) : merge_cluster [r] = r := by
  obtain ⟨x, y, w, h, c, s, sp⟩ := r
  obtain ⟨w2, hw2⟩ := hw
  obtain ⟨h2, hh2⟩ := hh
  simp only at hw2 hh2
  subst hw2
  subst hh2
  have hwdiv : (w2 + w2).fdiv 2 = w2 := by
    rw [show w2 + w2 = 2 * w2 by ring, Int.mul_fdiv_cancel_left _ (by norm_num)]
  have hhdiv : (h2 + h2).fdiv 2 = h2 := by
    rw [show h2 + h2 = 2 * h2 by ring, Int.mul_fdiv_cancel_left _ (by norm_num)]
  simp only [merge_cluster, List.foldl_nil, List.any_cons, List.any_nil,
    Bool.or_false, regionLeft, regionRight, regionTop, regionBottom,
    hwdiv, hhdiv]
  have hx : x - w2 + (x + w2) = 2 * x := by ring
  have hy : y - h2 + (y + h2) = 2 * y := by ring
  rw [hx, hy, Int.mul_tdiv_cancel_left _ (by norm_num : (2:ℤ) ≠ 0),
    Int.mul_tdiv_cancel_left _ (by norm_num : (2:ℤ) ≠ 0)]
  simp only [BlurRegion.mk.injEq, and_true, true_and]
  constructor <;> ring

/-- On a list in which no two regions overlap above the threshold and all
dimensions are even, the greedy clustering pass is the identity: every
cluster is a singleton and the singleton merge is exact. -/
theorem merge_overlapping_aux_eq_self (thr : ℚ) :
    ∀ (fuel : ℕ) (l : List BlurRegion), l.length ≤ fuel →
    List.Pairwise (fun a b => iou a b ≤ thr) l →
    (∀ r ∈ l, Even r.width ∧ Even r.height) →
    merge_overlapping_aux thr fuel l = l := by
  intro fuel
  induction fuel with
  | zero =>
    intro l hl _ _
    have : l = [] := List.eq_nil_of_length_eq_zero (Nat.le_zero.mp hl)
    subst this
    rfl
  | succ fuel ih =>
    intro l hl hpair heven
    cases l with
    | nil => rfl
    | cons r rest =>
      rw [List.pairwise_cons] at hpair
      obtain ⟨hr, hrest⟩ := hpair
      have hov : rest.filter (fun other => decide (thr < iou r other)) = [] := by
        rw [List.filter_eq_nil_iff]
        intro o ho
        simp only [decide_eq_true_eq, not_lt]
        exact hr o ho
      have hrem : rest.filter (fun other => !decide (thr < iou r other)) = rest := by
        rw [List.filter_eq_self]
        intro o ho
        simp only [Bool.not_eq_eq_eq_not, Bool.not_true, decide_eq_false_iff_not,
          not_lt]
        exact hr o ho
      simp only [merge_overlapping_aux]
      rw [hov, hrem,
        merge_cluster_singleton r (heven r (List.mem_cons_self _ _)).1
          (heven r (List.mem_cons_self _ _)).2,
        ih rest (by simp only [List.length_cons] at hl; omega) hrest
          (fun o ho => heven o (List.mem_cons_of_mem _ ho))]

/-- C1 counterexample: two 3×3 regions at centres `(0,0)` and `(1,0)` have
IoU `1/8 ≤ 0.3`, so a first merge keeps them separate — but the singleton
merge rewrites each width/height to `2 * (3 // 2) = 2`.  The shrunken boxes
keep the same footprint while their recorded areas drop from 9 to 4, so the
recomputed IoU rises to `1/3 > 0.3` and a second merge collapses the two
regions into one: `_merge_overlapping` is not idempotent on this
non-overlapping input. -/
theorem merge_overlapping_not_idempotent :
    List.Pairwise (fun a b => iou a b ≤ 3 / 10)
      [(⟨0, 0, 3, 3, 1, DetectionSource.demo, false⟩ : BlurRegion),
       ⟨1, 0, 3, 3, 1, DetectionSource.demo, false⟩] ∧
    merge_overlapping (merge_overlapping
        [(⟨0, 0, 3, 3, 1, DetectionSource.demo, false⟩ : BlurRegion),
         ⟨1, 0, 3, 3, 1, DetectionSource.demo, false⟩] (3 / 10)) (3 / 10) ≠
      merge_overlapping
        [(⟨0, 0, 3, 3, 1, DetectionSource.demo, false⟩ : BlurRegion),
         ⟨1, 0, 3, 3, 1, DetectionSource.demo, false⟩] (3 / 10) := by
  have h32 : Int.fdiv 3 2 = 1 := by decide
  have h22 : Int.fdiv 2 2 = 1 := by decide
  have ht12 : Int.tdiv 1 2 = 0 := by decide
  have hiou1 : iou ⟨0, 0, 3, 3, 1, DetectionSource.demo, false⟩
      ⟨1, 0, 3, 3, 1, DetectionSource.demo, false⟩ = 1 / 8 := by
    simp only [iou, regionLeft, regionRight, regionTop, regionBottom, h32]
    norm_num [max_def, min_def]
  have hd1 : (decide ((3 : ℚ) / 10 <
      iou ⟨0, 0, 3, 3, 1, DetectionSource.demo, false⟩
          ⟨1, 0, 3, 3, 1, DetectionSource.demo, false⟩)) = false := by
    rw [hiou1]
    norm_num
  have h1 : merge_overlapping
      [(⟨0, 0, 3, 3, 1, DetectionSource.demo, false⟩ : BlurRegion),
       ⟨1, 0, 3, 3, 1, DetectionSource.demo, false⟩] (3 / 10) =
      [(⟨0, 0, 2, 2, 1, DetectionSource.demo, false⟩ : BlurRegion),
       ⟨1, 0, 2, 2, 1, DetectionSource.demo, false⟩] := by
    have hsort : List.mergeSort
        [(⟨0, 0, 3, 3, 1, DetectionSource.demo, false⟩ : BlurRegion),
         ⟨1, 0, 3, 3, 1, DetectionSource.demo, false⟩]
        (fun a b => decide (b.width * b.height ≤ a.width * a.height)) =
        [(⟨0, 0, 3, 3, 1, DetectionSource.demo, false⟩ : BlurRegion),
         ⟨1, 0, 3, 3, 1, DetectionSource.demo, false⟩] :=
      List.mergeSort_of_sorted (by decide)
    simp only [merge_overlapping, List.length_cons, List.length_nil]
    rw [hsort]
    simp only [merge_overlapping_aux, List.filter_cons, List.filter_nil, hd1,
      Bool.false_eq_true, if_false, Bool.not_false, if_true, merge_cluster,
      List.foldl_nil, List.any_cons, List.any_nil, Bool.or_false,
      regionLeft, regionRight, regionTop, regionBottom, h32]
    norm_num
  have hiou2 : iou ⟨0, 0, 2, 2, 1, DetectionSource.demo, false⟩
      ⟨1, 0, 2, 2, 1, DetectionSource.demo, false⟩ = 1 / 3 := by
    simp only [iou, regionLeft, regionRight, regionTop, regionBottom, h22]
    norm_num [max_def, min_def]
  have hd2 : (decide ((3 : ℚ) / 10 <
      iou ⟨0, 0, 2, 2, 1, DetectionSource.demo, false⟩
          ⟨1, 0, 2, 2, 1, DetectionSource.demo, false⟩)) = true := by
    rw [hiou2]
    norm_num
  have h2 : merge_overlapping
      [(⟨0, 0, 2, 2, 1, DetectionSource.demo, false⟩ : BlurRegion),
       ⟨1, 0, 2, 2, 1, DetectionSource.demo, false⟩] (3 / 10) =
      [(⟨0, 0, 3, 2, 1, DetectionSource.demo, false⟩ : BlurRegion)] := by
    have hsort : List.mergeSort
        [(⟨0, 0, 2, 2, 1, DetectionSource.demo, false⟩ : BlurRegion),
         ⟨1, 0, 2, 2, 1, DetectionSource.demo, false⟩]
        (fun a b => decide (b.width * b.height ≤ a.width * a.height)) =
        [(⟨0, 0, 2, 2, 1, DetectionSource.demo, false⟩ : BlurRegion),
         ⟨1, 0, 2, 2, 1, DetectionSource.demo, false⟩] :=
      List.mergeSort_of_sorted (by decide)
    simp only [merge_overlapping, List.length_cons, List.length_nil]
    rw [hsort]
    simp only [merge_overlapping_aux, List.filter_cons, List.filter_nil, hd2,
      if_true, Bool.not_true, Bool.false_eq_true, if_false, merge_cluster,
      List.foldl_cons, List.foldl_nil, List.any_cons, List.any_nil,
      Bool.or_false, regionLeft, regionRight, regionTop, regionBottom, h22]
    norm_num [max_def, min_def, ht12]
  constructor
  · have hpl : iou ⟨0, 0, 3, 3, 1, DetectionSource.demo, false⟩
        ⟨1, 0, 3, 3, 1, DetectionSource.demo, false⟩ ≤ 3 / 10 := by
      rw [hiou1]; norm_num
    exact List.pairwise_cons.mpr ⟨fun o ho => by
      rcases List.mem_singleton.mp ho with rfl
      exact hpl, List.pairwise_singleton _ _⟩
  · rw [h1, h2]
    intro hcontra
    have := congrArg List.length hcontra
    simp at this

/-- C1 amended: restricted to regions of even width and height (where the
`2 * (w // 2)` round-trip is exact), the merger is idempotent on any
pairwise-non-overlapping input: one pass merely sorts the list by area, and
a second pass returns it unchanged. -/
theorem merge_overlapping_idempotent (L : List BlurRegion)
    (hpair : List.Pairwise (fun a b => iou a b ≤ 3 / 10) L)
    (heven : ∀ r ∈ L, Even r.width ∧ Even r.height) :
    merge_overlapping (merge_overlapping L (3 / 10)) (3 / 10)
      = merge_overlapping L (3 / 10) := by
  have htrans : ∀ a b c : BlurRegion,
      (fun a b : BlurRegion => decide (b.width * b.height ≤ a.width * a.height)) a b = true →
      (fun a b : BlurRegion => decide (b.width * b.height ≤ a.width * a.height)) b c = true →
      (fun a b : BlurRegion => decide (b.width * b.height ≤ a.width * a.height)) a c = true := by
    intro a b c hab hbc
    simp only [decide_eq_true_eq] at hab hbc ⊢
    exact le_trans hbc hab
  have htotal : ∀ a b : BlurRegion,
      ((fun a b : BlurRegion => decide (b.width * b.height ≤ a.width * a.height)) a b ||
       (fun a b : BlurRegion => decide (b.width * b.height ≤ a.width * a.height)) b a) = true := by
    intro a b
    simp only [Bool.or_eq_true, decide_eq_true_eq]
    exact (le_total (b.width * b.height) (a.width * a.height))
  cases L with
  | nil => rfl
  | cons r0 rest0 =>
    have hperm := List.mergeSort_perm (r0 :: rest0)
      (fun a b => decide (b.width * b.height ≤ a.width * a.height))
    have hpairS : List.Pairwise (fun a b => iou a b ≤ 3 / 10)
        ((r0 :: rest0).mergeSort
          (fun a b => decide (b.width * b.height ≤ a.width * a.height))) :=
      (List.Perm.pairwise_iff (fun hxy => by rw [iou_comm]; exact hxy) hperm).mpr hpair
    have hevenS : ∀ x ∈ (r0 :: rest0).mergeSort
        (fun a b => decide (b.width * b.height ≤ a.width * a.height)),
        Even x.width ∧ Even x.height :=
      fun x hx => heven x (hperm.mem_iff.mp hx)
    have hlenS : ((r0 :: rest0).mergeSort
        (fun a b => decide (b.width * b.height ≤ a.width * a.height))).length
        = (r0 :: rest0).length := hperm.length_eq
    have hfirst : merge_overlapping (r0 :: rest0) (3 / 10)
        = (r0 :: rest0).mergeSort
            (fun a b => decide (b.width * b.height ≤ a.width * a.height)) := by
      simp only [merge_overlapping]
      exact merge_overlapping_aux_eq_self (3 / 10) (r0 :: rest0).length _
        (le_of_eq hlenS) hpairS hevenS
    rw [hfirst]
    have hsortedS := List.sorted_mergeSort htrans htotal (r0 :: rest0)
    cases hScase : (r0 :: rest0).mergeSort
        (fun a b => decide (b.width * b.height ≤ a.width * a.height)) with
    | nil => rfl
    | cons s0 S1 =>
      rw [hScase] at hpairS hevenS hsortedS
      simp only [merge_overlapping]
      rw [List.mergeSort_of_sorted hsortedS]
      exact merge_overlapping_aux_eq_self (3 / 10) (s0 :: S1).length (s0 :: S1)
        (le_refl _) hpairS hevenS

/-- Witness for the amended C1: two even, non-overlapping regions survive a
double merge untouched. -/
theorem merge_overlapping_idempotent_witness :
    List.Pairwise (fun a b => iou a b ≤ 3 / 10)
      [(⟨0, 0, 2, 2, 1, DetectionSource.demo, false⟩ : BlurRegion),
       ⟨10, 0, 2, 2, 1, DetectionSource.demo, false⟩] ∧
    (∀ r ∈ [(⟨0, 0, 2, 2, 1, DetectionSource.demo, false⟩ : BlurRegion),
            ⟨10, 0, 2, 2, 1, DetectionSource.demo, false⟩],
      Even r.width ∧ Even r.height) ∧
    merge_overlapping (merge_overlapping
        [(⟨0, 0, 2, 2, 1, DetectionSource.demo, false⟩ : BlurRegion),
         ⟨10, 0, 2, 2, 1, DetectionSource.demo, false⟩] (3 / 10)) (3 / 10)
      = merge_overlapping
          [(⟨0, 0, 2, 2, 1, DetectionSource.demo, false⟩ : BlurRegion),
           ⟨10, 0, 2, 2, 1, DetectionSource.demo, false⟩] (3 / 10) := by
  have h22 : Int.fdiv 2 2 = 1 := by decide
  have hiou : iou ⟨0, 0, 2, 2, 1, DetectionSource.demo, false⟩
      ⟨10, 0, 2, 2, 1, DetectionSource.demo, false⟩ = 0 := by
    simp only [iou, regionLeft, regionRight, regionTop, regionBottom, h22]
    norm_num [max_def, min_def]
  have hpair : List.Pairwise (fun a b => iou a b ≤ 3 / 10)
      [(⟨0, 0, 2, 2, 1, DetectionSource.demo, false⟩ : BlurRegion),
       ⟨10, 0, 2, 2, 1, DetectionSource.demo, false⟩] := by
    refine List.pairwise_cons.mpr ⟨fun o ho => ?_, List.pairwise_singleton _ _⟩
    rcases List.mem_singleton.mp ho with rfl
    rw [hiou]
    norm_num
  have heven : ∀ r ∈ [(⟨0, 0, 2, 2, 1, DetectionSource.demo, false⟩ : BlurRegion),
      ⟨10, 0, 2, 2, 1, DetectionSource.demo, false⟩],
      Even r.width ∧ Even r.height := by
    intro r hr
    fin_cases hr <;> exact ⟨⟨1, by norm_num⟩, ⟨1, by norm_num⟩⟩
  exact ⟨hpair, heven, merge_overlapping_idempotent _ hpair heven⟩

end RegionMerger

section EdgeWrap

open Ensemble

theorem foldl_min_le_init (f : BlurRegion → ℤ) :
    ∀ (l : List BlurRegion) (init : ℤ),
      l.foldl (fun m o => min m (f o)) init ≤ init := by
  intro l
  induction l with
  | nil => intro init; exact le_refl _
  | cons a l ih =>
    intro init
    exact le_trans (ih (min init (f a))) (min_le_left _ _)

theorem foldl_min_ge (f : BlurRegion → ℤ) (c : ℤ) :
    ∀ (l : List BlurRegion) (init : ℤ), c ≤ init → (∀ o ∈ l, c ≤ f o) →
      c ≤ l.foldl (fun m o => min m (f o)) init := by
  intro l
  induction l with
  | nil => intro init hc _; exact hc
  | cons a l ih =>
    intro init hc h
    exact ih (min init (f a)) (le_min hc (h a (List.mem_cons_self _ _)))
      (fun o ho => h o (List.mem_cons_of_mem _ ho))

theorem foldl_max_init_le (f : BlurRegion → ℤ) :
    ∀ (l : List BlurRegion) (init : ℤ),
      init ≤ l.foldl (fun m o => max m (f o)) init := by
  intro l
  induction l with
  | nil => intro init; exact le_refl _
  | cons a l ih =>
    intro init
    exact le_trans (le_max_left _ _) (ih (max init (f a)))

theorem foldl_max_le (f : BlurRegion → ℤ) (c : ℤ) :
    ∀ (l : List BlurRegion) (init : ℤ), init ≤ c → (∀ o ∈ l, f o ≤ c) →
      l.foldl (fun m o => max m (f o)) init ≤ c := by
  intro l
  induction l with
  | nil => intro init hc _; exact hc
  | cons a l ih =>
    intro init hc h
    exact ih (max init (f a)) (max_le hc (h a (List.mem_cons_self _ _)))
      (fun o ho => h o (List.mem_cons_of_mem _ ho))

/-- The re-derived box of a merged cluster stays inside the hull
`[lo, hi]` of its members: the centre truncation and the `// 2` round-trip
can only shrink the box (never extend it), for non-negative `lo`. -/
theorem merged_box_bounds (lo hi : ℤ) (h0 : 0 ≤ lo) (hlh : lo ≤ hi) :
    lo ≤ Int.tdiv (lo + hi) 2 - Int.fdiv (hi - lo) 2 ∧
    Int.tdiv (lo + hi) 2 + Int.fdiv (hi - lo) 2 ≤ hi := by
  rw [Int.tdiv_eq_ediv (by omega) (by norm_num),
    Int.fdiv_eq_ediv _ (by norm_num)]
  omega

/-- A cluster of well-formed regions whose boxes all lie inside the original
image merges to a region whose box also lies inside the original image. -/
theorem merge_cluster_in_bounds (W H : ℤ) (r : BlurRegion)
    (rs : List BlurRegion)
    (h : ∀ o ∈ r :: rs, 0 ≤ o.width ∧ 0 ≤ o.height ∧ inOriginalBounds W H o) :
    inOriginalBounds W H (merge_cluster (r :: rs)) := by
  have hr := h r (List.mem_cons_self _ _)
  have hLR : regionLeft r ≤ regionRight r := by
    have h1 : 0 ≤ r.width.fdiv 2 := Int.fdiv_nonneg hr.1 (by norm_num)
    simp only [regionLeft, regionRight]
    omega
  have hTB : regionTop r ≤ regionBottom r := by
    have h1 : 0 ≤ r.height.fdiv 2 := Int.fdiv_nonneg hr.2.1 (by norm_num)
    simp only [regionTop, regionBottom]
    omega
  have hminx0 : 0 ≤ rs.foldl (fun m o => min m (regionLeft o)) (regionLeft r) :=
    foldl_min_ge regionLeft 0 rs (regionLeft r) hr.2.2.1
      (fun o ho => (h o (List.mem_cons_of_mem _ ho)).2.2.1)
  have hminx_le : rs.foldl (fun m o => min m (regionLeft o)) (regionLeft r)
      ≤ regionLeft r := foldl_min_le_init regionLeft rs (regionLeft r)
  have hmaxx_ge : regionRight r
      ≤ rs.foldl (fun m o => max m (regionRight o)) (regionRight r) :=
    foldl_max_init_le regionRight rs (regionRight r)
  have hmaxxW : rs.foldl (fun m o => max m (regionRight o)) (regionRight r)
      ≤ W := foldl_max_le regionRight W rs (regionRight r) hr.2.2.2.1
      (fun o ho => (h o (List.mem_cons_of_mem _ ho)).2.2.2.1)
  have hminy0 : 0 ≤ rs.foldl (fun m o => min m (regionTop o)) (regionTop r) :=
    foldl_min_ge regionTop 0 rs (regionTop r) hr.2.2.2.2.1
      (fun o ho => (h o (List.mem_cons_of_mem _ ho)).2.2.2.2.1)
  have hminy_le : rs.foldl (fun m o => min m (regionTop o)) (regionTop r)
      ≤ regionTop r := foldl_min_le_init regionTop rs (regionTop r)
  have hmaxy_ge : regionBottom r
      ≤ rs.foldl (fun m o => max m (regionBottom o)) (regionBottom r) :=
    foldl_max_init_le regionBottom rs (regionBottom r)
  have hmaxyH : rs.foldl (fun m o => max m (regionBottom o)) (regionBottom r)
      ≤ H := foldl_max_le regionBottom H rs (regionBottom r) hr.2.2.2.2.2
      (fun o ho => (h o (List.mem_cons_of_mem _ ho)).2.2.2.2.2)
  have hxx : rs.foldl (fun m o => min m (regionLeft o)) (regionLeft r)
      ≤ rs.foldl (fun m o => max m (regionRight o)) (regionRight r) :=
    le_trans hminx_le (le_trans hLR hmaxx_ge)
  have hyy : rs.foldl (fun m o => min m (regionTop o)) (regionTop r)
      ≤ rs.foldl (fun m o => max m (regionBottom o)) (regionBottom r) :=
    le_trans hminy_le (le_trans hTB hmaxy_ge)
  have hbx := merged_box_bounds _ _ hminx0 hxx
  have hby := merged_box_bounds _ _ hminy0 hyy
  simp only [merge_cluster, inOriginalBounds, regionLeft, regionRight, regionTop, regionBottom] at hminx0 hminx_le hmaxx_ge hmaxxW hminy0 hminy_le hmaxy_ge hmaxyH hbx hby ⊢
  exact ⟨by omega, by omega, by omega, by omega⟩

/-- Every region the padded-pass translation emits with `spans_edge = false`
is well-formed and lies inside the original image: interior detections were
already inside `[0, W]`, and duplicate-zone detections translate into
`[0, pad] ⊆ [0, W]`.  (Edge-straddling detections are emitted with
`spans_edge = true` and their boxes deliberately overhang.) -/
theorem translate_spans_false_in_bounds (W H pad : ℤ) (hpadW : pad ≤ W) :
    ∀ (regions : List BlurRegion),
    (∀ r ∈ regions, inPaddedBounds W H pad r) →
    ∀ r ∈ translate_edge_detections regions W pad,
      0 ≤ r.width ∧ 0 ≤ r.height ∧
      (r.spans_edge = false → inOriginalBounds W H r) := by
  intro regions
  induction regions with
  | nil =>
    intro _ r hr
    simp [translate_edge_detections] at hr
  | cons q rest ih =>
    intro h r hr
    have hq := h q (List.mem_cons_self _ _)
    obtain ⟨hqw, hqh, hqL, hqR, hqT, hqB⟩ := hq
    simp only [regionLeft, regionRight, regionTop, regionBottom]
      at hqL hqR hqT hqB
    simp only [translate_edge_detections, List.mem_append] at hr
    rcases hr with hr | hr
    · by_cases hc1 : W ≤ regionLeft q
      · rw [if_pos hc1] at hr
        rcases List.mem_singleton.mp hr with rfl
        refine ⟨hqw, hqh, fun _ => ?_⟩
        simp only [regionLeft, regionRight] at hc1
        simp only [inOriginalBounds, regionLeft, regionRight, regionTop,
          regionBottom]
        refine ⟨by omega, by omega, by omega, by omega⟩
      · rw [if_neg hc1] at hr
        by_cases hc2 : W < regionRight q ∧ regionLeft q < W
        · rw [if_pos hc2] at hr
          rcases List.mem_singleton.mp hr with rfl
          exact ⟨hqw, hqh, fun hfalse => by simp at hfalse⟩
        · rw [if_neg hc2] at hr
          by_cases hc3 : regionRight q ≤ W
          · rw [if_pos hc3] at hr
            rcases List.mem_singleton.mp hr with rfl
            refine ⟨hqw, hqh, fun _ => ?_⟩
            simp only [regionLeft, regionRight] at hc3
            simp only [inOriginalBounds, regionLeft, regionRight, regionTop,
              regionBottom]
            refine ⟨by omega, by omega, by omega, by omega⟩
          · rw [if_neg hc3] at hr
            simp at hr
    · exact ih (fun o ho => h o (List.mem_cons_of_mem _ ho)) r hr

/-- The clustering pass preserves "non-edge-spanning regions stay inside the
original image": a merged region is non-spanning only when every member of
its cluster is, and then the merged box lies in the members' hull. -/
theorem merge_overlapping_aux_bounds (W H : ℤ) (thr : ℚ) :
    ∀ (fuel : ℕ) (l : List BlurRegion),
    (∀ r ∈ l, 0 ≤ r.width ∧ 0 ≤ r.height ∧
      (r.spans_edge = false → inOriginalBounds W H r)) →
    ∀ r ∈ merge_overlapping_aux thr fuel l,
      r.spans_edge = false → inOriginalBounds W H r := by
  intro fuel
  induction fuel with
  | zero =>
    intro l _ r hr
    cases l <;> simp [merge_overlapping_aux] at hr
  | succ fuel ih =>
    intro l hP r hr
    cases l with
    | nil => simp [merge_overlapping_aux] at hr
    | cons q rest =>
      simp only [merge_overlapping_aux] at hr
      rcases List.mem_cons.mp hr with rfl | hr2
      · intro hspans
        have hcl : ∀ o ∈ q :: (rest.filter
            fun other => decide (thr < iou q other)), o.spans_edge = false := by
          have hany : ((q :: (rest.filter
              fun other => decide (thr < iou q other))).any (·.spans_edge))
              = false := hspans
          intro o ho
          have := List.any_eq_false.mp hany o ho
          simpa using this
        apply merge_cluster_in_bounds
        intro o ho
        have homem : o ∈ q :: rest := by
          rcases List.mem_cons.mp ho with rfl | ho2
          · exact List.mem_cons_self _ _
          · exact List.mem_cons_of_mem _ (List.mem_filter.mp ho2).1
        obtain ⟨hw, hh, hbo⟩ := hP o homem
        exact ⟨hw, hh, hbo (hcl o ho)⟩
      · intro hspans
        refine ih (rest.filter fun other => !decide (thr < iou q other))
          (fun o ho => hP o
            (List.mem_cons_of_mem _ (List.mem_filter.mp ho).1)) r hr2 hspans

/-- C2 counterexample: the claim fails as stated.  A detection at centre
`(105, 50)`, size `20 × 20`, lies entirely inside the padded image
(`W = 100`, `H = 100`, `pad = 15`: box `[95, 115] × [40, 60]`), straddles the
seam, and after translation plus clustering is returned with centre `x = 5`
and width 20 — its box `[-5, 15]` references pixels at negative x, outside
`[0, 100)`. -/
theorem edge_wrap_out_of_bounds_counterexample :
    inPaddedBounds 100 100 15
      ⟨105, 50, 20, 20, 1, DetectionSource.demo, false⟩ ∧
    (0 : ℤ) ≤ 15 ∧ (15 : ℤ) ≤ 100 ∧
    ∃ r ∈ merge_overlapping (translate_edge_detections
        [⟨105, 50, 20, 20, 1, DetectionSource.demo, false⟩] 100 15) (3 / 10),
      regionLeft r < 0 := by
  have htr : translate_edge_detections
      [(⟨105, 50, 20, 20, 1, DetectionSource.demo, false⟩ : BlurRegion)] 100 15
      = [⟨5, 50, 20, 20, 1, DetectionSource.edge_wrapped, true⟩] := by
    decide
  have hmerge : merge_overlapping
      [(⟨5, 50, 20, 20, 1, DetectionSource.edge_wrapped, true⟩ : BlurRegion)]
      (3 / 10)
      = [⟨5, 50, 20, 20, 1, DetectionSource.edge_wrapped, true⟩] := by
    have hsort : List.mergeSort
        [(⟨5, 50, 20, 20, 1, DetectionSource.edge_wrapped, true⟩ : BlurRegion)]
        (fun a b => decide (b.width * b.height ≤ a.width * a.height)) =
        [(⟨5, 50, 20, 20, 1, DetectionSource.edge_wrapped, true⟩ : BlurRegion)] :=
      List.mergeSort_of_sorted (List.pairwise_singleton _ _)
    simp only [merge_overlapping, List.length_cons, List.length_nil]
    rw [hsort]
    simp only [merge_overlapping_aux, List.filter_nil]
    rw [merge_cluster_singleton _ ⟨10, by norm_num⟩ ⟨10, by norm_num⟩]
  refine ⟨by decide, by decide, by decide, ?_⟩
  rw [htr, hmerge]
  exact ⟨⟨5, 50, 20, 20, 1, DetectionSource.edge_wrapped, true⟩,
    List.mem_singleton_self _, by decide⟩

/-- C2 amended: restricted to the regions the resolution emits with
`spans_edge = false`, the invariant holds — for every padded-pass detection
list whose boxes are well-formed and inside the padded image (with
`pad ≤ W`), every non-edge-spanning region output by translation plus
clustering has its box inside `[0, W) × [0, H)` (half-open, so box edges may
touch `W` / `H`).  Edge-spanning regions intentionally overhang and are
painted in two wrapped parts by the blur stage. -/
theorem edge_wrap_non_spanning_in_bounds (regions : List BlurRegion)
    (W H pad : ℤ) (hpadW : pad ≤ W)
    (hin : ∀ r ∈ regions, inPaddedBounds W H pad r) :
    ∀ r ∈ merge_overlapping (translate_edge_detections regions W pad) (3 / 10),
      r.spans_edge = false → inOriginalBounds W H r := by
  intro r hr hsp
  cases hT : translate_edge_detections regions W pad with
  | nil =>
    rw [hT] at hr
    simp [merge_overlapping] at hr
  | cons t0 ts =>
    rw [hT] at hr
    simp only [merge_overlapping] at hr
    have hperm := List.mergeSort_perm (t0 :: ts)
      (fun a b => decide (b.width * b.height ≤ a.width * a.height))
    have hP : ∀ o ∈ (t0 :: ts).mergeSort
        (fun a b => decide (b.width * b.height ≤ a.width * a.height)),
        0 ≤ o.width ∧ 0 ≤ o.height ∧
        (o.spans_edge = false → inOriginalBounds W H o) := by
      intro o ho
      have : o ∈ translate_edge_detections regions W pad := by
        rw [hT]
        exact hperm.mem_iff.mp ho
      exact translate_spans_false_in_bounds W H pad hpadW regions hin o this
    exact merge_overlapping_aux_bounds W H (3 / 10) (t0 :: ts).length _ hP r hr hsp

/-- Witness for the amended C2: a single interior detection stays inside. -/
theorem edge_wrap_non_spanning_in_bounds_witness :
    (15 : ℤ) ≤ 100 ∧
    (∀ r ∈ [(⟨50, 50, 20, 20, 1, DetectionSource.demo, false⟩ : BlurRegion)],
      inPaddedBounds 100 100 15 r) ∧
    (∀ r ∈ merge_overlapping (translate_edge_detections
        [(⟨50, 50, 20, 20, 1, DetectionSource.demo, false⟩ : BlurRegion)]
        100 15) (3 / 10),
      r.spans_edge = false → inOriginalBounds 100 100 r) := by
  have hin : ∀ r ∈ [(⟨50, 50, 20, 20, 1, DetectionSource.demo,
      false⟩ : BlurRegion)], inPaddedBounds 100 100 15 r := by
    intro r hr
    rcases List.mem_singleton.mp hr with rfl
    decide
  exact ⟨by decide, hin,
    edge_wrap_non_spanning_in_bounds _ 100 100 15 (by decide) hin⟩

end EdgeWrap

section Correlator

open GpxOverride Geo

/-- The per-image loop body never touches position index, filename, or the
capture timestamp, in any branch. -/
theorem processOne_frame (ctx : OverrideCtx) (img : Image) (s : Stats) :
    (processOne ctx img s).1.position_index = img.position_index ∧
    (processOne ctx img s).1.original_filename = img.original_filename ∧
    (processOne ctx img s).1.captured_at = img.captured_at := by
  simp only [processOne]
  repeat' split
  all_goals exact ⟨rfl, rfl, rfl⟩

/-- The image result of the loop body does not depend on the incoming stats
(the stats are only threaded for counting). -/
theorem processOne_image_stats_irrel (ctx : OverrideCtx) (img : Image)
    (s s2 : Stats) : (processOne ctx img s).1 = (processOne ctx img s2).1 := by
  simp only [processOne]
  repeat' split
  all_goals rfl

/-- A photo without a timestamp is returned untouched by the loop body. -/
theorem processOne_skip (ctx : OverrideCtx) (img : Image) (s : Stats)
    (hca : img.captured_at = none) : (processOne ctx img s).1 = img := by
  simp [processOne, hca]

/-- A photo with a timestamp and a successful (index-valid) match is
assigned exactly the matched point's rounded coordinates, altitude, the
precomputed cumulative distance and elevation gain, and the temporary
`_gpx_idx` marker. -/
theorem processOne_assign (ctx : OverrideCtx) (img : Image) (s : Stats)
    (t : ℚ) (mi : ℕ) (md : ℚ) (pt : TrackPt)
    (hca : img.captured_at = some t)
    (hf : find_gpx_point_by_elapsed_time
        (t - ctx.first_img_time + ctx.offset_seconds) ctx.gpx_points
        ctx.gpx_start_time = some (mi, md))
    (hg : ctx.gpx_points.get? mi = some pt) :
    (processOne ctx img s).1 =
      { img with
          latitude := some (pyRoundRat pt.lat 8),
          longitude := some (pyRoundRat pt.lon 8),
          altitude_meters := some (pyRoundRat pt.elevation 2),
          gpx_idx := some mi,
          distance_from_start := ctx.cumd.get? mi,
          elevation_gain_from_start := ctx.cumg.get? mi } := by
  rw [List.get?_eq_getElem?] at hg
  simp [processOne, hca, hf, hg]

/-- The loop body increments `no_timestamp` exactly on timestamp-less
photos. -/
theorem processOne_no_timestamp_count (ctx : OverrideCtx) (img : Image)
    (s : Stats) :
    (processOne ctx img s).2.no_timestamp
      = s.no_timestamp + (if noTimestampB img then 1 else 0) := by
  obtain ⟨pos, fn, ca, lat, lon, alt, dfs, egs, hd, hp, hn, gi⟩ := img
  simp only [processOne, noTimestampB]
  cases hca : ca with
  | none => simp
  | some t =>
    simp only [Option.isNone_some, Bool.false_eq_true, if_false]
    repeat' split
    all_goals simp

/-- The loop body increments `large_time_diff` exactly on photos whose
matched residual exceeds the threshold. -/
theorem processOne_large_count (ctx : OverrideCtx) (img : Image) (s : Stats) :
    (processOne ctx img s).2.large_time_diff
      = s.large_time_diff +
        (if largeDiffB ctx.gpx_points ctx.gpx_start_time ctx.first_img_time
            ctx.offset_seconds ctx.max_time_diff_seconds img then 1 else 0) := by
  obtain ⟨pos, fn, ca, lat, lon, alt, dfs, egs, hd, hp, hn, gi⟩ := img
  simp only [processOne, largeDiffB]
  cases hca : ca with
  | none => simp
  | some t =>
    cases hf : find_gpx_point_by_elapsed_time
        (t - ctx.first_img_time + ctx.offset_seconds) ctx.gpx_points
        ctx.gpx_start_time with
    | none => simp [hf]
    | some p =>
      obtain ⟨mi, md⟩ := p
      by_cases hlt : ctx.max_time_diff_seconds < md
      · cases hg : ctx.gpx_points[mi]? <;> simp [hf, hg, hlt]
      · cases hg : ctx.gpx_points[mi]? <;> simp [hf, hg, hlt]

theorem processImagesLoop_length (ctx : OverrideCtx) :
    ∀ (l : List Image) (s : Stats),
      ((processImagesLoop ctx l s).1).length = l.length := by
  intro l
  induction l with
  | nil => intro s; rfl
  | cons a l ih =>
    intro s
    simp only [processImagesLoop, List.length_cons]
    rw [ih]

theorem processImagesLoop_get? (ctx : OverrideCtx) :
    ∀ (l : List Image) (s : Stats) (k : ℕ),
      ((processImagesLoop ctx l s).1).get? k
        = (l.get? k).map (fun img => (processOne ctx img initialStats).1) := by
  intro l
  induction l with
  | nil => intro s k; simp [processImagesLoop]
  | cons a l ih =>
    intro s k
    cases k with
    | zero =>
      simp only [processImagesLoop, List.get?_cons_zero, Option.map_some']
      exact congrArg some (processOne_image_stats_irrel ctx a s initialStats)
    | succ k =>
      simp only [processImagesLoop, List.get?_cons_succ]
      exact ih _ k

theorem processImagesLoop_no_timestamp (ctx : OverrideCtx) :
    ∀ (l : List Image) (s : Stats),
      (processImagesLoop ctx l s).2.no_timestamp
        = s.no_timestamp + l.countP noTimestampB := by
  intro l
  induction l with
  | nil => intro s; simp [processImagesLoop]
  | cons a l ih =>
    intro s
    simp only [processImagesLoop]
    rw [ih, processOne_no_timestamp_count, List.countP_cons]
    split_ifs <;> omega

theorem processImagesLoop_large (ctx : OverrideCtx) :
    ∀ (l : List Image) (s : Stats),
      (processImagesLoop ctx l s).2.large_time_diff
        = s.large_time_diff + l.countP (fun img =>
            largeDiffB ctx.gpx_points ctx.gpx_start_time ctx.first_img_time
              ctx.offset_seconds ctx.max_time_diff_seconds img) := by
  intro l
  induction l with
  | nil => intro s; simp [processImagesLoop]
  | cons a l ih =>
    intro s
    simp only [processImagesLoop]
    rw [ih, processOne_large_count, List.countP_cons]
    split_ifs <;> omega

/-- The heading-popping pass only writes `heading_degrees` and `gpx_idx`. -/
theorem popGpxIdxAndSetHeading_fields (gpx_points : List TrackPt)
    (img : Image) :
    (popGpxIdxAndSetHeading gpx_points img).position_index = img.position_index ∧
    (popGpxIdxAndSetHeading gpx_points img).original_filename = img.original_filename ∧
    (popGpxIdxAndSetHeading gpx_points img).captured_at = img.captured_at ∧
    (popGpxIdxAndSetHeading gpx_points img).latitude = img.latitude ∧
    (popGpxIdxAndSetHeading gpx_points img).longitude = img.longitude ∧
    (popGpxIdxAndSetHeading gpx_points img).altitude_meters = img.altitude_meters ∧
    (popGpxIdxAndSetHeading gpx_points img).distance_from_start = img.distance_from_start ∧
    (popGpxIdxAndSetHeading gpx_points img).elevation_gain_from_start = img.elevation_gain_from_start := by
  simp only [popGpxIdxAndSetHeading]
  repeat' split
  all_goals exact ⟨rfl, rfl, rfl, rfl, rfl, rfl, rfl, rfl⟩

/-- The prev/next-heading pass only writes heading fields. -/
theorem headingUpdateAt_fields (images : List Image) (skip : Bool) (i : ℕ)
    (img : Image) :
    (headingUpdateAt images skip i img).position_index = img.position_index ∧
    (headingUpdateAt images skip i img).original_filename = img.original_filename ∧
    (headingUpdateAt images skip i img).captured_at = img.captured_at ∧
    (headingUpdateAt images skip i img).latitude = img.latitude ∧
    (headingUpdateAt images skip i img).longitude = img.longitude ∧
    (headingUpdateAt images skip i img).altitude_meters = img.altitude_meters ∧
    (headingUpdateAt images skip i img).distance_from_start = img.distance_from_start ∧
    (headingUpdateAt images skip i img).elevation_gain_from_start = img.elevation_gain_from_start := by
  simp only [headingUpdateAt]
  repeat' split
  all_goals exact ⟨rfl, rfl, rfl, rfl, rfl, rfl, rfl, rfl⟩

theorem mapWithIndex_length (f : ℕ → Image → Image) :
    ∀ (l : List Image) (i : ℕ), (mapWithIndex f i l).length = l.length := by
  intro l
  induction l with
  | nil => intro i; rfl
  | cons a l ih =>
    intro i
    simp only [mapWithIndex, List.length_cons]
    rw [ih]

theorem mapWithIndex_get? (f : ℕ → Image → Image) :
    ∀ (l : List Image) (i k : ℕ),
      (mapWithIndex f i l).get? k = (l.get? k).map (f (i + k)) := by
  intro l
  induction l with
  | nil => intro i k; simp [mapWithIndex]
  | cons a l ih =>
    intro i k
    cases k with
    | zero => simp [mapWithIndex]
    | succ k =>
      simp only [mapWithIndex, List.get?_cons_succ]
      rw [ih (i + 1) k]
      have : i + 1 + k = i + (k + 1) := by omega
      rw [this]

/-- On the main path (non-empty images, non-empty track, a first timestamp)
`override_gps_from_gpx` is the loop followed by the two heading passes. -/
theorem override_main_eq (images : List Image) (g0 : TrackPt)
    (gtail : List TrackPt) (offset_seconds maxd t0 : ℚ)
    (hft : firstImgTime images = some t0) :
    override_gps_from_gpx images (g0 :: gtail) offset_seconds maxd =
      (Geo.calculate_image_headings
        (((processImagesLoop
            ⟨g0 :: gtail, g0.time, t0, offset_seconds, maxd,
             calculate_cumulative_distances (g0 :: gtail),
             calculate_cumulative_elevation_gain (g0 :: gtail)⟩
            images initialStats).1).map
          (popGpxIdxAndSetHeading (g0 :: gtail))) true,
       (processImagesLoop
            ⟨g0 :: gtail, g0.time, t0, offset_seconds, maxd,
             calculate_cumulative_distances (g0 :: gtail),
             calculate_cumulative_elevation_gain (g0 :: gtail)⟩
            images initialStats).2) := by
  cases images with
  | nil => simp [firstImgTime] at hft
  | cons a l =>
    simp only [override_gps_from_gpx, List.isEmpty_cons, Bool.false_eq_true,
      if_false, hft]

/-- Projection composition used for the frame theorem: the loop body and the
two heading passes all preserve the frame fields. -/
theorem frameFields_comp (A : List Image) (skip : Bool) (i : ℕ)
    (g : List TrackPt) (ctx : OverrideCtx) (s : Stats) (img : Image) :
    frameFields (headingUpdateAt A skip i
        (popGpxIdxAndSetHeading g ((processOne ctx img s).1)))
      = frameFields img := by
  have hA := headingUpdateAt_fields A skip i
    (popGpxIdxAndSetHeading g ((processOne ctx img s).1))
  have hB := popGpxIdxAndSetHeading_fields g ((processOne ctx img s).1)
  have hC := processOne_frame ctx img s
  simp only [frameFields, hA.1, hA.2.1, hA.2.2.1, hB.1, hB.2.1, hB.2.2.1,
    hC.1, hC.2.1, hC.2.2]

end Correlator

section CorrelatorTheorems

open GpxOverride Geo

/-- C6: the correlation pass overwrites only GPS/altitude/heading/distance/
elevation-gain fields — it never changes an image's `position_index`,
`original_filename`, or `captured_at`, it never reorders the sequence, and
it never adds or removes an image (the output length equals the input
length and the `k`-th output record corresponds to the `k`-th input
record). -/
theorem correlation_preserves_frame (images : List Image)
    (gpx_points : List TrackPt) (offset_seconds maxd : ℚ) :
    (override_gps_from_gpx images gpx_points offset_seconds maxd).1.length
      = images.length ∧
    ∀ k, (((override_gps_from_gpx images gpx_points offset_seconds
        maxd).1.get? k).map frameFields)
      = (images.get? k).map frameFields := by
  by_cases hie : images.isEmpty = true
  · have h : override_gps_from_gpx images gpx_points offset_seconds maxd
        = (images, initialStats) := by
      simp [override_gps_from_gpx, hie]
    rw [h]
    exact ⟨rfl, fun k => rfl⟩
  · cases gpx_points with
    | nil =>
      have h : override_gps_from_gpx images [] offset_seconds maxd
          = (images, initialStats) := by
        simp [override_gps_from_gpx, hie]
      rw [h]
      exact ⟨rfl, fun k => rfl⟩
    | cons g0 gtail =>
      cases hft : firstImgTime images with
      | none =>
        have h : override_gps_from_gpx images (g0 :: gtail) offset_seconds maxd
            = (images, initialStats) := by
          simp [override_gps_from_gpx, hie, hft]
        rw [h]
        exact ⟨rfl, fun k => rfl⟩
      | some t0 =>
        rw [override_main_eq images g0 gtail offset_seconds maxd t0 hft]
        constructor
        · simp only [calculate_image_headings]
          rw [mapWithIndex_length, List.length_map, processImagesLoop_length]
        · intro k
          simp only [calculate_image_headings]
          rw [mapWithIndex_get?, List.get?_map, processImagesLoop_get?]
          cases hk : images.get? k with
          | none => rfl
          | some img =>
            simp only [Option.map_some']
            exact congrArg some (frameFields_comp _ _ _ _ _ _ _)

/-- C7: per-item degradation is non-fatal and non-destructive.  On the main
correlation path: the output has one record per input record; a photo
without a timestamp is counted in `no_timestamp` and keeps its prior GPS
fields (latitude, longitude, altitude, distance, elevation gain) in the
output; a photo whose matched residual exceeds `max_time_diff_seconds` is
counted in `large_time_diff` but is still assigned the matched point's
rounded coordinates, altitude, and the precomputed cumulative distance and
elevation gain.  The model is a total function — no exception path exists in
either case. -/
theorem override_per_item_degradation (images : List Image)
    (gpx_points : List TrackPt) (offset_seconds maxd t0 : ℚ)
    (hgpx : gpx_points ≠ [])
    (hft : firstImgTime images = some t0) :
    (override_gps_from_gpx images gpx_points offset_seconds maxd).1.length
      = images.length ∧
    (override_gps_from_gpx images gpx_points offset_seconds maxd).2.no_timestamp
      = images.countP noTimestampB ∧
    (override_gps_from_gpx images gpx_points offset_seconds
        maxd).2.large_time_diff
      = images.countP (largeDiffB gpx_points (gpx_points.getD 0 dummyPt).time
          t0 offset_seconds maxd) ∧
    (∀ k img, images.get? k = some img → img.captured_at = none →
      noTimestampB img = true ∧
      ∃ outk, (override_gps_from_gpx images gpx_points offset_seconds
          maxd).1.get? k = some outk ∧
        outk.latitude = img.latitude ∧ outk.longitude = img.longitude ∧
        outk.altitude_meters = img.altitude_meters ∧
        outk.distance_from_start = img.distance_from_start ∧
        outk.elevation_gain_from_start = img.elevation_gain_from_start) ∧
    (∀ k img t mi md, images.get? k = some img → img.captured_at = some t →
      find_gpx_point_by_elapsed_time (t - t0 + offset_seconds) gpx_points
        (gpx_points.getD 0 dummyPt).time = some (mi, md) →
      maxd < md →
      largeDiffB gpx_points (gpx_points.getD 0 dummyPt).time t0 offset_seconds
        maxd img = true ∧
      ∃ pt outk, gpx_points.get? mi = some pt ∧
        (override_gps_from_gpx images gpx_points offset_seconds
            maxd).1.get? k = some outk ∧
        outk.latitude = some (pyRoundRat pt.lat 8) ∧
        outk.longitude = some (pyRoundRat pt.lon 8) ∧
        outk.altitude_meters = some (pyRoundRat pt.elevation 2) ∧
        outk.distance_from_start
          = (calculate_cumulative_distances gpx_points).get? mi ∧
        outk.elevation_gain_from_start
          = (calculate_cumulative_elevation_gain gpx_points).get? mi) := by
  cases gpx_points with
  | nil => exact absurd rfl hgpx
  | cons g0 gtail =>
    rw [override_main_eq images g0 gtail offset_seconds maxd t0 hft]
    simp only [List.getD_cons_zero]
    refine ⟨?_, ?_, ?_, ?_, ?_⟩
    · simp only [calculate_image_headings]
      rw [mapWithIndex_length, List.length_map, processImagesLoop_length]
    · rw [processImagesLoop_no_timestamp]
      simp [initialStats]
    · rw [processImagesLoop_large]
      simp [initialStats]
    · intro k img hk hca
      refine ⟨by simp [noTimestampB, hca], ?_⟩
      simp only [calculate_image_headings]
      rw [mapWithIndex_get?, List.get?_map, processImagesLoop_get?, hk]
      simp only [Option.map_some']
      have hX := processOne_skip
        ⟨g0 :: gtail, g0.time, t0, offset_seconds, maxd,
         calculate_cumulative_distances (g0 :: gtail),
         calculate_cumulative_elevation_gain (g0 :: gtail)⟩ img initialStats hca
      refine ⟨_, rfl, ?_, ?_, ?_, ?_, ?_⟩
      · rw [(headingUpdateAt_fields _ _ _ _).2.2.2.1,
          (popGpxIdxAndSetHeading_fields _ _).2.2.2.1, hX]
      · rw [(headingUpdateAt_fields _ _ _ _).2.2.2.2.1,
          (popGpxIdxAndSetHeading_fields _ _).2.2.2.2.1, hX]
      · rw [(headingUpdateAt_fields _ _ _ _).2.2.2.2.2.1,
          (popGpxIdxAndSetHeading_fields _ _).2.2.2.2.2.1, hX]
      · rw [(headingUpdateAt_fields _ _ _ _).2.2.2.2.2.2.1,
          (popGpxIdxAndSetHeading_fields _ _).2.2.2.2.2.2.1, hX]
      · rw [(headingUpdateAt_fields _ _ _ _).2.2.2.2.2.2.2,
          (popGpxIdxAndSetHeading_fields _ _).2.2.2.2.2.2.2, hX]
    · intro k img t mi md hk hca hf hlt
      have hne : (g0 :: gtail) ≠ [] := List.cons_ne_nil _ _
      obtain ⟨mi2, md2, heq2, hlen2, _, _, _, _⟩ :=
        find_gpx_spec (t - t0 + offset_seconds) g0.time (g0 :: gtail) hne
      have e := Option.some.inj (hf.symm.trans heq2)
      have hmi : mi = mi2 := congrArg Prod.fst e
      subst hmi
      have hg : (g0 :: gtail).get? mi
          = some ((g0 :: gtail).get ⟨mi, hlen2⟩) := List.get?_eq_get _
      refine ⟨by simp [largeDiffB, hca, hf, hlt], ?_⟩
      have hX := processOne_assign
        ⟨g0 :: gtail, g0.time, t0, offset_seconds, maxd,
         calculate_cumulative_distances (g0 :: gtail),
         calculate_cumulative_elevation_gain (g0 :: gtail)⟩ img initialStats
        t mi md ((g0 :: gtail).get ⟨mi, hlen2⟩) hca hf hg
      refine ⟨(g0 :: gtail).get ⟨mi, hlen2⟩, ?_⟩
      simp only [calculate_image_headings]
      rw [mapWithIndex_get?, List.get?_map, processImagesLoop_get?, hk]
      simp only [Option.map_some']
      refine ⟨_, hg, rfl, ?_, ?_, ?_, ?_, ?_⟩
      · rw [(headingUpdateAt_fields _ _ _ _).2.2.2.1,
          (popGpxIdxAndSetHeading_fields _ _).2.2.2.1, hX]
      · rw [(headingUpdateAt_fields _ _ _ _).2.2.2.2.1,
          (popGpxIdxAndSetHeading_fields _ _).2.2.2.2.1, hX]
      · rw [(headingUpdateAt_fields _ _ _ _).2.2.2.2.2.1,
          (popGpxIdxAndSetHeading_fields _ _).2.2.2.2.2.1, hX]
      · rw [(headingUpdateAt_fields _ _ _ _).2.2.2.2.2.2.1,
          (popGpxIdxAndSetHeading_fields _ _).2.2.2.2.2.2.1, hX]
      · rw [(headingUpdateAt_fields _ _ _ _).2.2.2.2.2.2.2,
          (popGpxIdxAndSetHeading_fields _ _).2.2.2.2.2.2.2, hX]

end CorrelatorTheorems

section CorrelatorWitness

open GpxOverride Geo

/-- Witness for C7 on a concrete manifest: one photo without a timestamp,
one matching exactly, one whose residual (1000 s) exceeds the 60 s
threshold. -/
theorem override_per_item_degradation_witness :
    ([(⟨0, 1, 2, 5⟩ : TrackPt)] : List TrackPt) ≠ [] ∧
    firstImgTime
      [(⟨0, "a", none, none, none, none, none, none, none, none, none,
        none⟩ : Image),
      ⟨1, "b", some 0, none, none, none, none, none, none, none, none, none⟩,
      ⟨2, "c", some 1000, none, none, none, none, none, none, none, none,
        none⟩] = some 0 ∧
    ((override_gps_from_gpx
      [(⟨0, "a", none, none, none, none, none, none, none, none, none,
        none⟩ : Image),
      ⟨1, "b", some 0, none, none, none, none, none, none, none, none, none⟩,
      ⟨2, "c", some 1000, none, none, none, none, none, none, none, none,
        none⟩] [(⟨0, 1, 2, 5⟩ : TrackPt)] 0 60).1.length
      = ([(⟨0, "a", none, none, none, none, none, none, none, none, none,
        none⟩ : Image),
      ⟨1, "b", some 0, none, none, none, none, none, none, none, none, none⟩,
      ⟨2, "c", some 1000, none, none, none, none, none, none, none, none,
        none⟩] : List Image).length ∧
    (override_gps_from_gpx
      [(⟨0, "a", none, none, none, none, none, none, none, none, none,
        none⟩ : Image),
      ⟨1, "b", some 0, none, none, none, none, none, none, none, none, none⟩,
      ⟨2, "c", some 1000, none, none, none, none, none, none, none, none,
        none⟩] [(⟨0, 1, 2, 5⟩ : TrackPt)] 0 60).2.no_timestamp
      = ([(⟨0, "a", none, none, none, none, none, none, none, none, none,
        none⟩ : Image),
      ⟨1, "b", some 0, none, none, none, none, none, none, none, none, none⟩,
      ⟨2, "c", some 1000, none, none, none, none, none, none, none, none,
        none⟩] : List Image).countP noTimestampB ∧
    (override_gps_from_gpx
      [(⟨0, "a", none, none, none, none, none, none, none, none, none,
        none⟩ : Image),
      ⟨1, "b", some 0, none, none, none, none, none, none, none, none, none⟩,
      ⟨2, "c", some 1000, none, none, none, none, none, none, none, none,
        none⟩] [(⟨0, 1, 2, 5⟩ : TrackPt)] 0 60).2.large_time_diff
      = ([(⟨0, "a", none, none, none, none, none, none, none, none, none,
        none⟩ : Image),
      ⟨1, "b", some 0, none, none, none, none, none, none, none, none, none⟩,
      ⟨2, "c", some 1000, none, none, none, none, none, none, none, none,
        none⟩] : List Image).countP
          (largeDiffB [(⟨0, 1, 2, 5⟩ : TrackPt)] (([(⟨0, 1, 2, 5⟩ : TrackPt)] : List TrackPt).getD 0 dummyPt).time
            0 0 60) ∧
    (∀ k img, ([(⟨0, "a", none, none, none, none, none, none, none, none, none,
        none⟩ : Image),
      ⟨1, "b", some 0, none, none, none, none, none, none, none, none, none⟩,
      ⟨2, "c", some 1000, none, none, none, none, none, none, none, none,
        none⟩] : List Image).get? k = some img →
      img.captured_at = none →
      noTimestampB img = true ∧
      ∃ outk, (override_gps_from_gpx
          [(⟨0, "a", none, none, none, none, none, none, none, none, none,
        none⟩ : Image),
      ⟨1, "b", some 0, none, none, none, none, none, none, none, none, none⟩,
      ⟨2, "c", some 1000, none, none, none, none, none, none, none, none,
        none⟩] [(⟨0, 1, 2, 5⟩ : TrackPt)] 0 60).1.get? k = some outk ∧
        outk.latitude = img.latitude ∧ outk.longitude = img.longitude ∧
        outk.altitude_meters = img.altitude_meters ∧
        outk.distance_from_start = img.distance_from_start ∧
        outk.elevation_gain_from_start = img.elevation_gain_from_start) ∧
    (∀ k img t mi md, ([(⟨0, "a", none, none, none, none, none, none, none, none, none,
        none⟩ : Image),
      ⟨1, "b", some 0, none, none, none, none, none, none, none, none, none⟩,
      ⟨2, "c", some 1000, none, none, none, none, none, none, none, none,
        none⟩] : List Image).get? k = some img →
      img.captured_at = some t →
      find_gpx_point_by_elapsed_time (t - 0 + 0) [(⟨0, 1, 2, 5⟩ : TrackPt)]
        (([(⟨0, 1, 2, 5⟩ : TrackPt)] : List TrackPt).getD 0 dummyPt).time = some (mi, md) →
      (60 : ℚ) < md →
      largeDiffB [(⟨0, 1, 2, 5⟩ : TrackPt)] (([(⟨0, 1, 2, 5⟩ : TrackPt)] : List TrackPt).getD 0 dummyPt).time
        0 0 60 img = true ∧
      ∃ pt outk, ([(⟨0, 1, 2, 5⟩ : TrackPt)] : List TrackPt).get? mi = some pt ∧
        (override_gps_from_gpx
          [(⟨0, "a", none, none, none, none, none, none, none, none, none,
        none⟩ : Image),
      ⟨1, "b", some 0, none, none, none, none, none, none, none, none, none⟩,
      ⟨2, "c", some 1000, none, none, none, none, none, none, none, none,
        none⟩] [(⟨0, 1, 2, 5⟩ : TrackPt)] 0 60).1.get? k = some outk ∧
        outk.latitude = some (pyRoundRat pt.lat 8) ∧
        outk.longitude = some (pyRoundRat pt.lon 8) ∧
        outk.altitude_meters = some (pyRoundRat pt.elevation 2) ∧
        outk.distance_from_start
          = (calculate_cumulative_distances [(⟨0, 1, 2, 5⟩ : TrackPt)]).get? mi ∧
        outk.elevation_gain_from_start
          = (calculate_cumulative_elevation_gain [(⟨0, 1, 2, 5⟩ : TrackPt)]).get? mi)) := by
  have hft : firstImgTime
      [(⟨0, "a", none, none, none, none, none, none, none, none, none,
        none⟩ : Image),
      ⟨1, "b", some 0, none, none, none, none, none, none, none, none, none⟩,
      ⟨2, "c", some 1000, none, none, none, none, none, none, none, none,
        none⟩] = some 0 := rfl
  exact ⟨List.cons_ne_nil _ _, hft,
    override_per_item_degradation _ _ 0 60 0 (List.cons_ne_nil _ _) hft⟩

end CorrelatorWitness
